import Mathlib

/-!
# PROTEUS particle-transport engine: verification of the specification

Shallow embedding of the PROTEUS Lagrangian particle engine (release
schedule, current-field service, particle update pipeline and bake
playback) over exact rationals.  Every definition is translated directly
from the JavaScript source; floating-point transcendental operations
(sqrt, pow, log-interpolation) are abstracted as explicit function
parameters, never evaluated, so that every proved statement holds for the
real-number semantics as well.
-/

namespace Proteus

/-- km per degree of longitude at the reference latitude (`LON_SCALE = 88.8`). -/
def LON_SCALE : ℚ := 444 / 5

/-- km per degree of latitude (`LAT_SCALE = 111.0`). -/
def LAT_SCALE : ℚ := 111

/-- `K_UPS = 86.4`: converts (m/s)·day into km. -/
def K_UPS : ℚ := 432 / 5

/-! ## Tracer library (part_000, `TracerLibrary`) -/

/-- `tracer.behavior` sub-record of a tracer library entry. -/
structure TracerBehavior where
  diffusivityScale : ℚ
  settlingVelocity : ℚ
  decay : Bool
  sigmaH : ℚ
  sigmaV : ℚ
deriving DecidableEq, Repr

/-- One entry of `TracerLibrary` (identifier and display strings omitted). -/
structure Tracer where
  halfLife : ℚ
  defaultTotal : ℚ
  behavior : TracerBehavior
deriving DecidableEq, Repr

/-- `TracerLibrary.cs137`: half-life 11000 days, default inventory 16.2e15 Bq. -/
def cs137 : Tracer :=
  { halfLife := 11000
    defaultTotal := 16200000000000000
    behavior :=
      { diffusivityScale := 1
        settlingVelocity := 0
        decay := true
        sigmaH := 10000
        sigmaV := 50 } }

/-! ## Release phases (part_000, `ReleasePhase` / `ReleaseManager`) -/

/-- Activity unit strings recognised by `convertToBaseUnit`. -/
inductive ActivityUnit where
  | GBq
  | TBq
  | PBq
deriving DecidableEq, Repr

/-- `ReleasePhase`.  The source field `end` is a Lean keyword and is named
`stop` here. -/
structure ReleasePhase where
  start : ℚ
  stop : ℚ
  total : ℚ
  unit : ActivityUnit
deriving DecidableEq, Repr

/-- `ReleasePhase.getDuration`. -/
def ReleasePhase.getDuration (p : ReleasePhase) : ℚ := p.stop - p.start

/-- `ReleasePhase.getRate`: `total / duration`, in the phase's declared unit. -/
def ReleasePhase.getRate (p : ReleasePhase) : ℚ := p.total / p.getDuration

/-- `ReleaseManager.convertToBaseUnit`: GBq = 1, TBq = 1000, PBq = 1e6. -/
def convertToBaseUnit (amount : ℚ) : ActivityUnit → ℚ
  | ActivityUnit.GBq => amount * 1
  | ActivityUnit.TBq => amount * 1000
  | ActivityUnit.PBq => amount * 1000000

/-- `ReleaseManager.getRateAtDay`: scan the phases in declaration order and
return the rate of the first phase whose inclusive interval contains `day`,
else 0. -/
def getRateAtDay : List ReleasePhase → ℚ → ℚ
  | [], _ => 0
  | p :: ps, day =>
      if p.start ≤ day ∧ day ≤ p.stop then p.getRate else getRateAtDay ps day

/-- `ReleaseManager.getTotalRelease`: sum of `total · unit→GBq` over phases. -/
def getTotalRelease (phases : List ReleasePhase) : ℚ :=
  phases.foldl (fun acc p => acc + p.total * convertToBaseUnit 1 p.unit) 0

/-- `ReleaseManager.getParticleActivity`. -/
def getParticleActivity (phases : List ReleasePhase) (totalParticles : ℚ) : ℚ :=
  getTotalRelease phases / totalParticles

/-- `ReleaseManager.addDefaultPhase`: seeds a single phase on days [0, 30]
whose `total` is `tracer.defaultTotal / 1e9` (the source comment reads
"Convert to GBq") and whose `unit` field is the string `PBq`. -/
def addDefaultPhase (tracer : Tracer) : List ReleasePhase :=
  [{ start := 0, stop := 30, total := tracer.defaultTotal / 1000000000
     unit := ActivityUnit.PBq }]

/-- Release-related engine state touched by `setReleasePhases`
(`releaseManager.phases`, the pool size and the calibration
`UNITS_PER_PARTICLE`). -/
structure ReleaseState where
  phases : List ReleasePhase
  particleCount : ℚ
  unitsPerParticle : ℚ
deriving DecidableEq, Repr

/-- `ParticleEngine3D.calculateParticleCalibration`. -/
def calculateParticleCalibration (st : ReleaseState) : ReleaseState :=
  let totalRelease := getTotalRelease st.phases
  { st with unitsPerParticle :=
      if 0 < totalRelease then getParticleActivity st.phases st.particleCount else 1 }

/-- `ParticleEngine3D.setReleasePhases`: assigns the supplied list to
`releaseManager.phases` unconditionally, then recalibrates. -/
def setReleasePhases (st : ReleaseState) (phases : List ReleasePhase) : ReleaseState :=
  calculateParticleCalibration { st with phases := phases }

/-- `validatePhase` from the configuration UI (part_002): a phase input is
rejected when `end ≤ start` or `start < 0`. -/
def validatePhase (start stop : ℚ) : Bool :=
  if stop ≤ start then false
  else if start < 0 then false
  else true

/-! ### Helper lemmas about `getRateAtDay` -/

/-- `getRateAtDay` agrees with scanning for the first containing phase. -/
theorem getRateAtDay_eq_find (phases : List ReleasePhase) (day : ℚ) :
    getRateAtDay phases day =
      match phases.find? (fun q => decide (q.start ≤ day ∧ day ≤ q.stop)) with
      | some q => q.total / (q.stop - q.start)
      | none => 0 := by
  induction phases with
  | nil => rfl
  | cons p ps ih =>
      by_cases h : p.start ≤ day ∧ day ≤ p.stop
      · simp [getRateAtDay, List.find?, h, ReleasePhase.getRate, ReleasePhase.getDuration]
      · simp [getRateAtDay, List.find?, h, ih]

/-- If every phase has a positive rate and some phase contains `day`, the
scanned rate is positive. -/
theorem getRateAtDay_pos (phases : List ReleasePhase) (day : ℚ)
    (hvalid : ∀ q ∈ phases, q.start < q.stop ∧ 0 < q.total)
    (hmem : ∃ q ∈ phases, q.start ≤ day ∧ day ≤ q.stop) :
    0 < getRateAtDay phases day := by
  induction phases with
  | nil => simp at hmem
  | cons p ps ih =>
      by_cases h : p.start ≤ day ∧ day ≤ p.stop
      · have hp := hvalid p (List.mem_cons_self ..)
        have hdur : 0 < p.stop - p.start := by linarith [hp.1]
        simp only [getRateAtDay, if_pos h]
        exact div_pos hp.2 hdur
      · simp only [getRateAtDay, if_neg h]
        rcases hmem with ⟨q, hq, hcont⟩
        rcases List.mem_cons.mp hq with rfl | hq'
        · exact absurd hcont h
        · exact ih (fun r hr => hvalid r (List.mem_cons_of_mem _ hr)) ⟨q, hq', hcont⟩

/-- If no phase contains `day` the scanned rate is 0. -/
theorem getRateAtDay_eq_zero (phases : List ReleasePhase) (day : ℚ)
    (hnone : ∀ q ∈ phases, ¬(q.start ≤ day ∧ day ≤ q.stop)) :
    getRateAtDay phases day = 0 := by
  induction phases with
  | nil => rfl
  | cons p ps ih =>
      have hp := hnone p (List.mem_cons_self ..)
      simp only [getRateAtDay, if_neg hp]
      exact ih fun r hr => hnone r (List.mem_cons_of_mem _ hr)

/-! ## Claim theorems: release schedule -/

/-- C5: `getRateAtDay` returns `total/(end−start)` (in the declared source
unit) of the first phase in declaration order whose inclusive interval
contains the day, else 0; for valid positive phases the rate is positive at
both boundaries of any listed phase, and 0 at any day beyond a phase's end
that lies outside every phase. -/
theorem rateAtDay_spec (phases : List ReleasePhase) (ph : ReleasePhase)
    (hvalid : ∀ q ∈ phases, q.start < q.stop ∧ 0 < q.total)
    (hmem : ph ∈ phases) :
    (∀ day : ℚ,
        getRateAtDay phases day =
          match phases.find? (fun q => decide (q.start ≤ day ∧ day ≤ q.stop)) with
          | some q => q.total / (q.stop - q.start)
          | none => 0)
    ∧ 0 < getRateAtDay phases ph.start
    ∧ 0 < getRateAtDay phases ph.stop
    ∧ ∀ ε : ℚ, 0 < ε →
        (∀ q ∈ phases, ¬(q.start ≤ ph.stop + ε ∧ ph.stop + ε ≤ q.stop)) →
        getRateAtDay phases (ph.stop + ε) = 0 := by
  have hph := hvalid ph hmem
  refine ⟨fun day => getRateAtDay_eq_find phases day, ?_, ?_, ?_⟩
  · exact getRateAtDay_pos phases ph.start hvalid
      ⟨ph, hmem, le_refl _, le_of_lt hph.1⟩
  · exact getRateAtDay_pos phases ph.stop hvalid
      ⟨ph, hmem, le_of_lt hph.1, le_refl _⟩
  · intro ε _ hout
    exact getRateAtDay_eq_zero phases _ hout

/-- C5 witness: the single phase [0, 30] with total 16.2 PBq has positive
rate at day 0. -/
theorem rateAtDay_spec_witness :
    0 < getRateAtDay [⟨0, 30, 162 / 10, ActivityUnit.PBq⟩] (0 : ℚ) := by
  have h := rateAtDay_spec [⟨0, 30, 162 / 10, ActivityUnit.PBq⟩]
    ⟨0, 30, 162 / 10, ActivityUnit.PBq⟩
    (by intro q hq; simp at hq; subst hq; norm_num) (by simp)
  exact h.2.1

/-- C6: evaluating `addDefaultPhase` on the bound Cs-137 tracer.  The seeded
phase covers [0, 30] and carries unit `PBq`, but its `total` is
`defaultTotal / 1e9 = 16 200 000` — the inventory expressed in GBq (as the
source comment says) yet labelled PBq — not the 16.2 PBq the specification
states. -/
theorem addDefaultPhase_bug :
    addDefaultPhase cs137 =
      [{ start := 0, stop := 30, total := 16200000, unit := ActivityUnit.PBq }]
    ∧ (16200000 : ℚ) ≠ 162 / 10 := by
  refine ⟨?_, by norm_num⟩
  simp only [addDefaultPhase, cs137, List.cons.injEq, and_true,
    ReleasePhase.mk.injEq]
  norm_num

/-- C3 counterexample: `setReleasePhases` applied to a list containing a
phase with `end ≤ start` (here end 5 < start 10) does not fail — the invalid
schedule replaces the previous one. -/
theorem setReleasePhases_cex :
    (setReleasePhases
        { phases := [⟨0, 30, 10, ActivityUnit.PBq⟩], particleCount := 10000,
          unitsPerParticle := 1 }
        [⟨10, 5, 7, ActivityUnit.GBq⟩]).phases
      = [⟨10, 5, 7, ActivityUnit.GBq⟩]
    ∧ [(⟨10, 5, 7, ActivityUnit.GBq⟩ : ReleasePhase)]
        ≠ [⟨0, 30, 10, ActivityUnit.PBq⟩] := by
  exact ⟨rfl, by decide⟩

/-- C3 amended: the engine-level `setReleasePhases` installs the supplied
list unconditionally and atomically (the whole list replaces the schedule,
so it is never partially applied), raising no `InvalidPhase` error; the
`end ≤ start` validation lives in the configuration UI's `validatePhase`,
which rejects exactly the inputs with `end ≤ start` or `start < 0`. -/
theorem setReleasePhases_amended (st : ReleaseState) (ps : List ReleasePhase)
    (s e : ℚ) :
    (setReleasePhases st ps).phases = ps
    ∧ (validatePhase s e = false ↔ e ≤ s ∨ s < 0) := by
  constructor
  · rfl
  · unfold validatePhase
    by_cases h1 : e ≤ s
    · simp [h1]
    · by_cases h2 : s < 0 <;> simp [h1, h2]

/-- C3 amended witness: a phase input with end 5 ≤ start 10 is rejected by
the UI validator while the engine-level replacement still installs it. -/
theorem setReleasePhases_amended_witness :
    (setReleasePhases
        { phases := [], particleCount := 10000, unitsPerParticle := 1 }
        [⟨10, 5, 7, ActivityUnit.GBq⟩]).phases = [⟨10, 5, 7, ActivityUnit.GBq⟩]
    ∧ validatePhase 10 5 = false := by
  have h := setReleasePhases_amended
    { phases := [], particleCount := 10000, unitsPerParticle := 1 }
    [⟨10, 5, 7, ActivityUnit.GBq⟩] 10 5
  exact ⟨h.1, h.2.mpr (Or.inl (by norm_num))⟩

/-! ## Current field service lookup (web/hycomLoader.js)

Float values are modelled as `Option ℚ`: `none` stands for IEEE NaN (and
for the `undefined` produced by an out-of-range JavaScript array read,
which `isNaN` also maps to true). -/

/-- One loaded velocity day (`dayData`). -/
structure DayData where
  nLat : ℕ
  nLon : ℕ
  nDepth : ℕ
  lonArray : List (Option ℚ)
  latArray : List (Option ℚ)
  uArray : List (Option ℚ)
  vArray : List (Option ℚ)
deriving DecidableEq, Repr

/-- `dayData.totalCells = nLat · nLon`. -/
def DayData.totalCells (d : DayData) : ℕ := d.nLat * d.nLon

/-- `dayData.totalDataPoints = totalCells · nDepth`. -/
def DayData.totalDataPoints (d : DayData) : ℕ := d.totalCells * d.nDepth

/-- JavaScript array read: out-of-range gives `undefined`, which the
sentinel test treats like NaN, hence `none`. -/
def jsGet (xs : List (Option ℚ)) (i : ℕ) : Option ℚ := (xs.get? i).getD none

/-- The sentinel test `!isNaN(w) && Math.abs(w) < 1000` on one component. -/
def sentinelOK : Option ℚ → Bool
  | none => false
  | some q => decide (|q| < 1000)

/-- A nearest-cell result (`{i, j, idx}`; the squared distance is kept for
the running comparison; the source's reported `distance` is its square
root and is never compared). -/
structure Cell where
  i : ℕ
  j : ℕ
  idx : ℕ
  dist2 : ℚ
deriving DecidableEq, Repr

/-- Candidate update inside `findNearestCellLinear`: keep the incumbent
unless the new cell is strictly closer (squared Euclidean distance in
lon/lat degrees, as the source computes). -/
def considerCell (lon lat : ℚ) (d : DayData) (best : Option Cell) (i j : ℕ) :
    Option Cell :=
  let idx := i * d.nLon + j
  match jsGet d.lonArray idx, jsGet d.latArray idx with
  | some cellLon, some cellLat =>
      let dist := (cellLon - lon) ^ 2 + (cellLat - lat) ^ 2
      match best with
      | none => some ⟨i, j, idx, dist⟩
      | some b => if dist < b.dist2 then some ⟨i, j, idx, dist⟩ else some b
  | _, _ => best

/-- `findNearestCellLinear`: scan every 10th row and column (`i += 10`,
`j += 10`), skipping cells with NaN coordinates, keeping the closest.  This
is the lookup path taken when no spatial index has been built; `isOcean`
and `getVelocityAt` call the same cell lookup. -/
def findNearestCellLinear (lon lat : ℚ) (d : DayData) : Option Cell :=
  ((List.range d.nLat).filter (fun i => i % 10 = 0)).foldl
    (fun best i =>
      ((List.range d.nLon).filter (fun j => j % 10 = 0)).foldl
        (fun best j => considerCell lon lat d best i j) best)
    none

/-- First index of an exact match, `Array.indexOf`-style. -/
def idxOfQ (x : ℚ) : List ℚ → Option ℕ
  | [] => none
  | y :: ys => if y = x then some 0 else (idxOfQ x ys).map (· + 1)

/-- `getDepthIndex`: 0 for an empty depth table; the exact index when the
target is listed; otherwise the index of the closest depth (first winner on
ties, scanning from index 1 with a strict improvement test). -/
def getDepthIndex (depths : List ℚ) (target : ℚ) : ℕ :=
  match depths with
  | [] => 0
  | d0 :: _ =>
      match idxOfQ target depths with
      | some i => i
      | none =>
          (((List.range depths.length).drop 1).foldl
            (fun (b : ℕ × ℚ) i =>
              let d := ((depths.get? i).getD 0)
              if |target - d| < b.2 then (i, |target - d|) else b)
            (0, |target - d0|)).1

/-- `getVelocityAt` result record (fields not used by the claims omitted). -/
structure VelResult where
  u : ℚ
  v : ℚ
  found : Bool
deriving DecidableEq, Repr

/-- `getVelocityAt(lon, lat, depth, simulationDay)`: snap the depth, load
the day (the resident day for the resolved date is supplied by `getDay`),
find the nearest cell, and return `(u, v)` with `found` true exactly when
both u and v pass the sentinel test at the in-bounds flat index. -/
def getVelocityAt (depths : List ℚ) (getDay : ℚ → DayData)
    (lon lat depth simulationDay : ℚ) : VelResult :=
  let depthIndex := getDepthIndex depths depth
  let dayData := getDay simulationDay
  match findNearestCellLinear lon lat dayData with
  | none => ⟨0, 0, false⟩
  | some cell =>
      let idx := depthIndex * dayData.totalCells + cell.idx
      if dayData.totalDataPoints ≤ idx then ⟨0, 0, false⟩
      else
        let u := jsGet dayData.uArray idx
        let v := jsGet dayData.vArray idx
        let isOc := sentinelOK u && sentinelOK v
        ⟨if isOc then u.getD 0 else 0, if isOc then v.getD 0 else 0, isOc⟩

/-- `isOcean(lon, lat, depth, simulationDay)`: same date resolution, day
load and nearest-cell lookup, but the test applied is the sentinel check on
the u component only. -/
def isOcean (depths : List ℚ) (getDay : ℚ → DayData)
    (lon lat depth simulationDay : ℚ) : Bool :=
  let dayData := getDay simulationDay
  match findNearestCellLinear lon lat dayData with
  | none => false
  | some cell =>
      let depthIndex := getDepthIndex depths depth
      let idx := depthIndex * dayData.totalCells + cell.idx
      sentinelOK (jsGet dayData.uArray idx)

/-- 1×1×1 day grid whose single cell has u = 0 (passes the sentinel) and
v = NaN (fails it). -/
def dayUOkVNaN : DayData :=
  { nLat := 1, nLon := 1, nDepth := 1
    lonArray := [some 0], latArray := [some 0]
    uArray := [some 0], vArray := [none] }

/-! ## Claim theorems: `isOcean` versus `getVelocityAt.found` -/

/-- C2 counterexample: on a grid whose nearest cell has u passing the
sentinel check and v = NaN failing it, `isOcean` returns true while
`getVelocityAt(...).found` is false, so `isOcean` is not the `found` flag
and is not the conjunction of both sentinel checks. -/
theorem isOcean_found_cex :
    isOcean [0] (fun _ => dayUOkVNaN) 0 0 0 0 = true
    ∧ (getVelocityAt [0] (fun _ => dayUOkVNaN) 0 0 0 0).found = false := by
  exact ⟨rfl, rfl⟩

/-- C2 amended: `isOcean` returns true exactly when the nearest cell exists
and the u value at the snapped depth level passes the sentinel check (not
NaN and |u| < 1000); it agrees with `getVelocityAt(...).found` whenever
`found` is true, and also whenever the cell's v value passes the sentinel
and the flat index is in bounds — the two differ only when u passes and v
fails. -/
theorem isOcean_amended (depths : List ℚ) (getDay : ℚ → DayData)
    (lon lat depth simulationDay : ℚ) :
    (isOcean depths getDay lon lat depth simulationDay = true ↔
      ∃ cell, findNearestCellLinear lon lat (getDay simulationDay) = some cell
        ∧ sentinelOK (jsGet (getDay simulationDay).uArray
            (getDepthIndex depths depth * (getDay simulationDay).totalCells
              + cell.idx)) = true)
    ∧ ((getVelocityAt depths getDay lon lat depth simulationDay).found = true →
        isOcean depths getDay lon lat depth simulationDay = true)
    ∧ (∀ cell,
        findNearestCellLinear lon lat (getDay simulationDay) = some cell →
        getDepthIndex depths depth * (getDay simulationDay).totalCells + cell.idx
            < (getDay simulationDay).totalDataPoints →
        sentinelOK (jsGet (getDay simulationDay).vArray
            (getDepthIndex depths depth * (getDay simulationDay).totalCells
              + cell.idx)) = true →
        isOcean depths getDay lon lat depth simulationDay = true →
        (getVelocityAt depths getDay lon lat depth simulationDay).found = true) := by
  refine ⟨?_, ?_, ?_⟩
  · unfold isOcean
    cases hcell : findNearestCellLinear lon lat (getDay simulationDay) with
    | none => simp [hcell]
    | some cell => simp [hcell]
  · unfold isOcean getVelocityAt
    cases hcell : findNearestCellLinear lon lat (getDay simulationDay) with
    | none => simp [hcell]
    | some cell =>
        simp only [hcell]
        by_cases hidx : (getDay simulationDay).totalDataPoints ≤
            getDepthIndex depths depth * (getDay simulationDay).totalCells + cell.idx
        · simp [hidx]
        · simp only [hidx, if_false, Bool.and_eq_true]
          exact fun h => h.1
  · intro c hc hlt hv h
    unfold isOcean at h
    unfold getVelocityAt
    simp only [hc] at h ⊢
    simp only [if_neg (not_le.mpr hlt), Bool.and_eq_true]
    exact ⟨h, hv⟩

/-- C2 amended witness: on the concrete 1×1 grid with u = 0 and v = NaN the
characterisation yields `isOcean = true` from the sentinel check on u. -/
theorem isOcean_amended_witness :
    isOcean [0] (fun _ => dayUOkVNaN) 0 0 0 0 = true := by
  have h := isOcean_amended [0] (fun _ => dayUOkVNaN) 0 0 0 0
  exact h.1.mpr ⟨_, rfl, rfl⟩

/-! ## Day cache (web/hycomLoader.js, `loadDayByDate` / `_enforceMemoryLimit`)

Date keys (`YYYY-MM-DD` strings whose lexicographic order is chronological)
are modelled as naturals with their usual order.  A cache entry tracks only
whether its four large arrays are still held (`arrays = true`) or have been
nullified on eviction. -/

/-- A resident day's large arrays (lon/lat/u/v), `false` once nullified. -/
structure DayEntry where
  arrays : Bool
deriving DecidableEq, Repr

/-- Loader cache state: the `loadedDays` map in insertion order, the pinned
active day key, and `maxDaysInMemory`. -/
structure LoaderCache where
  loadedDays : List (ℕ × DayEntry)
  activeDayKey : Option ℕ
  maxDaysInMemory : ℕ
deriving DecidableEq, Repr

/-- The resident date keys, in map insertion order. -/
def residents (st : LoaderCache) : List ℕ := st.loadedDays.map Prod.fst

/-- Number of resident days other than the active day. -/
def nonActiveCount (st : LoaderCache) : ℕ :=
  ((residents st).filter (fun k => decide (some k ≠ st.activeDayKey))).length

/-- `_enforceMemoryLimit`, step 1: `Array.from(keys).sort()` — the resident
keys in ascending (chronological) order. -/
def sortedKeys (st : LoaderCache) : List ℕ :=
  List.insertionSort (· ≤ ·) (residents st)

/-- `_enforceMemoryLimit`, step 2: the oldest `size − max` keys (`toRemove`)
that are not the active day — exactly the keys the `forEach` deletes. -/
def removedKeys (st : LoaderCache) : List ℕ :=
  (((sortedKeys st).take ((sortedKeys st).length - st.maxDaysInMemory)).filter
    (fun k => decide (some k ≠ st.activeDayKey)))

/-- The cache state after the `forEach` deletion pass of
`_enforceMemoryLimit` (entries whose key is marked are removed). -/
def evictState (st : LoaderCache) : LoaderCache where
  loadedDays := st.loadedDays.filter (fun e => decide (e.1 ∉ removedKeys st))
  activeDayKey := st.activeDayKey
  maxDaysInMemory := st.maxDaysInMemory

/-- The entries deleted by that pass, with their large arrays nullified. -/
def evictedEntries (st : LoaderCache) : List (ℕ × DayEntry) :=
  (st.loadedDays.filter (fun e => decide (e.1 ∈ removedKeys st))).map
    (fun e => (e.1, { arrays := false }))

/-- `_enforceMemoryLimit`: when more days than `maxDaysInMemory` are
resident, delete every non-active day among the chronologically oldest
`size − max` keys, nullifying its large arrays first.  Returns the new
state together with the evicted entries. -/
def enforceMemoryLimit (st : LoaderCache) : LoaderCache × List (ℕ × DayEntry) :=
  if st.loadedDays.length ≤ st.maxDaysInMemory then (st, [])
  else (evictState st, evictedEntries st)

/-- The state right after `loadedDays.set(dateKey, result)` and
`activeDayKey = dateKey` on a cache miss (JS `Map.set` appends). -/
def insertDay (st : LoaderCache) (key : ℕ) : LoaderCache where
  loadedDays := st.loadedDays ++ [(key, ⟨true⟩)]
  activeDayKey := some key
  maxDaysInMemory := st.maxDaysInMemory

/-- `loadDayByDate`: a cache hit just re-pins the active day; a miss stores
the freshly loaded day, makes it active, and enforces the memory limit. -/
def loadDayByDate (st : LoaderCache) (key : ℕ) : LoaderCache :=
  if key ∈ residents st then { st with activeDayKey := some key }
  else (enforceMemoryLimit (insertDay st key)).1

/-- Constructor state: empty map, no active day, `maxDaysInMemory = 2`. -/
def initialCache : LoaderCache :=
  { loadedDays := [], activeDayKey := none, maxDaysInMemory := 2 }

/-- A sequence of `loadDayByDate` calls. -/
def loadSeq (st : LoaderCache) : List ℕ → LoaderCache
  | [] => st
  | k :: ks => loadSeq (loadDayByDate st k) ks

/-! ### Counting helpers -/

/-- Splitting a list by a Boolean predicate preserves length. -/
theorem length_filter_split {α : Type} (l : List α) (p : α → Bool) :
    (l.filter p).length + (l.filter (fun a => !(p a))).length = l.length := by
  induction l with
  | nil => rfl
  | cons x xs ih =>
      by_cases h : p x = true
      · simp [List.filter_cons, h, ← ih]; omega
      · simp only [Bool.not_eq_true] at h
        simp [List.filter_cons, h, ← ih]; omega

/-- In a duplicate-free list a present element is matched exactly once. -/
theorem length_filter_eq_self {α : Type} [DecidableEq α] (l : List α) (a : α)
    (hnd : l.Nodup) (ha : a ∈ l) :
    (l.filter (fun k => decide (k = a))).length = 1 := by
  induction l with
  | nil => simp at ha
  | cons x xs ih =>
      rcases eq_or_ne x a with rfl | hxa
      · have hx : x ∉ xs := (List.nodup_cons.mp hnd).1
        have hnil : xs.filter (fun k => decide (k = x)) = [] := by
          refine List.filter_eq_nil_iff.mpr fun b hb => ?_
          simp only [decide_eq_true_eq]
          rintro rfl; exact hx hb
        simp [List.filter_cons, hnil]
      · have ha' : a ∈ xs := by
          rcases List.mem_cons.mp ha with h | h
          · exact absurd h.symm hxa
          · exact h
        simp [List.filter_cons, hxa, ih (List.nodup_cons.mp hnd).2 ha']

/-- Removing the active key from a duplicate-free resident list drops its
length by exactly one. -/
theorem length_filter_ne_active {l : List ℕ} {a : ℕ}
    (hnd : l.Nodup) (ha : a ∈ l) :
    (l.filter (fun k => decide (some k ≠ some a))).length = l.length - 1 := by
  have hsplit := length_filter_split l (fun k => decide (some k ≠ some a))
  have hneg : (l.filter (fun k => !(decide (some k ≠ some a)))) =
      l.filter (fun k => decide (k = a)) := by
    apply List.filter_congr
    intro x _
    simp [decide_not]
  rw [hneg, length_filter_eq_self l a hnd ha] at hsplit
  omega

/-- `Nodup` subsets of lists cannot be longer than their superset. -/
theorem nodup_subset_length_le {l₁ l₂ : List ℕ}
    (hnd : l₁.Nodup) (hsub : l₁ ⊆ l₂) : l₁.length ≤ l₂.length := by
  calc l₁.length = l₁.toFinset.card := (List.toFinset_card_of_nodup hnd).symm
    _ ≤ l₂.toFinset.card := Finset.card_le_card fun x hx => by
        rw [List.mem_toFinset] at hx ⊢; exact hsub hx
    _ ≤ l₂.length := l₂.toFinset_card_le

/-- Filtering entries by a key predicate filters the resident keys. -/
theorem map_fst_filter (l : List (ℕ × DayEntry)) (p : ℕ → Bool) :
    (l.filter (fun e => p e.1)).map Prod.fst = (l.map Prod.fst).filter p := by
  induction l with
  | nil => rfl
  | cons e es ih =>
      by_cases h : p e.1 = true <;> simp [List.filter_cons, h, ih]

/-! ### Cache invariant -/

/-- The invariant maintained by `loadDayByDate`: keys are distinct, the
active day (once one exists) is resident, and at most `maxDaysInMemory`
non-active days are resident. -/
def CacheInv (st : LoaderCache) : Prop :=
  (residents st).Nodup
  ∧ (∀ a, st.activeDayKey = some a → a ∈ residents st)
  ∧ (st.activeDayKey = none → st.loadedDays = [])
  ∧ nonActiveCount st ≤ st.maxDaysInMemory

theorem initialCache_inv : CacheInv initialCache := by
  refine ⟨List.nodup_nil, ?_, ?_, ?_⟩ <;>
    simp [initialCache, residents, nonActiveCount]

/-- A state satisfying the invariant has at most `max + 1` resident days. -/
theorem residents_length_le (st : LoaderCache) (h : CacheInv st) :
    (residents st).length ≤ st.maxDaysInMemory + 1 := by
  obtain ⟨hnd, hsome, hnone, hcount⟩ := h
  cases hact : st.activeDayKey with
  | none =>
      have := hnone hact
      simp [residents, this]
  | some a =>
      have hmem := hsome a hact
      have h1 := length_filter_ne_active (a := a) hnd hmem
      have h2 : nonActiveCount st =
          ((residents st).filter (fun x => decide (some x ≠ some a))).length := by
        simp [nonActiveCount, hact]
      omega

/-- What `_enforceMemoryLimit` guarantees when the resident keys are
distinct and the active day is resident. -/
theorem enforceMemoryLimit_inv (st : LoaderCache) (a : ℕ)
    (hnd : (residents st).Nodup) (hact : st.activeDayKey = some a)
    (hmem : a ∈ residents st) :
    CacheInv (enforceMemoryLimit st).1
    ∧ (enforceMemoryLimit st).1.activeDayKey = some a
    ∧ (enforceMemoryLimit st).1.maxDaysInMemory = st.maxDaysInMemory := by
  unfold enforceMemoryLimit
  by_cases hlen : st.loadedDays.length ≤ st.maxDaysInMemory
  · rw [if_pos hlen]
    have hcount : nonActiveCount st ≤ st.maxDaysInMemory := by
      have h1 := length_filter_ne_active (a := a) hnd hmem
      have h2 : (residents st).length = st.loadedDays.length := by
        simp [residents]
      simp only [nonActiveCount, hact]
      omega
    refine ⟨⟨hnd, ?_, ?_, hcount⟩, hact, rfl⟩
    · intro b hb
      rw [hact] at hb
      injection hb with hb
      subst hb
      exact hmem
    · intro hn
      rw [hact] at hn
      cases hn
  · rw [if_neg hlen]
    have hperm : (sortedKeys st).Perm (residents st) := List.perm_insertionSort _ _
    have hres' : residents (evictState st) =
        (residents st).filter (fun k => decide (k ∉ removedKeys st)) := by
      simpa [residents, evictState] using
        map_fst_filter st.loadedDays (fun k => decide (k ∉ removedKeys st))
    have hnd' : ((residents st).filter (fun k => decide (k ∉ removedKeys st))).Nodup :=
      hnd.filter _
    have hanotrm : a ∉ removedKeys st := by
      intro hmemrm
      have := List.of_mem_filter hmemrm
      simp [hact] at this
    refine ⟨⟨?_, ?_, ?_, ?_⟩, hact, rfl⟩
    · show (residents (evictState st)).Nodup
      rw [hres']; exact hnd'
    · intro b hb
      have hb' : st.activeDayKey = some b := hb
      rw [hact] at hb'
      injection hb' with hb'
      rw [← hb']
      show a ∈ residents (evictState st)
      rw [hres']
      exact List.mem_filter.mpr ⟨hmem, by simpa using hanotrm⟩
    · intro hn
      have hn' : st.activeDayKey = none := hn
      rw [hact] at hn'
      cases hn'
    · -- every surviving non-active key lies in the kept tail of the sorted keys
      have hdroplen :
          ((sortedKeys st).drop ((sortedKeys st).length - st.maxDaysInMemory)).length
            = st.maxDaysInMemory := by
        have h1 : (residents st).length = st.loadedDays.length := by simp [residents]
        have h2 : (sortedKeys st).length = (residents st).length := hperm.length_eq
        simp only [List.length_drop]
        omega
      have hsub :
          (((residents st).filter (fun k => decide (k ∉ removedKeys st))).filter
              (fun k => decide (some k ≠ st.activeDayKey))) ⊆
            (sortedKeys st).drop ((sortedKeys st).length - st.maxDaysInMemory) := by
        intro x hx
        have hx1 := List.of_mem_filter hx
        have hx2 := List.mem_of_mem_filter hx
        have hx3 := List.of_mem_filter hx2
        have hx4 := List.mem_of_mem_filter hx2
        have hxkeys : x ∈ sortedKeys st := hperm.mem_iff.mpr hx4
        rw [← List.take_append_drop ((sortedKeys st).length - st.maxDaysInMemory)
          (sortedKeys st)] at hxkeys
        rcases List.mem_append.mp hxkeys with hin | hin
        · exfalso
          have hxrm : x ∈ removedKeys st := List.mem_filter.mpr ⟨hin, hx1⟩
          simp only [decide_eq_true_eq] at hx3
          exact hx3 hxrm
        · exact hin
      have hndf :
          (((residents st).filter (fun k => decide (k ∉ removedKeys st))).filter
            (fun k => decide (some k ≠ st.activeDayKey))).Nodup :=
        hnd'.filter _
      have hle := nodup_subset_length_le hndf hsub
      have hactev : (evictState st).activeDayKey = st.activeDayKey := rfl
      have hmaxev : (evictState st).maxDaysInMemory = st.maxDaysInMemory := rfl
      show nonActiveCount (evictState st) ≤ (evictState st).maxDaysInMemory
      simp only [nonActiveCount, hres', hactev, hmaxev]
      omega

/-- `loadDayByDate` preserves the cache invariant, fixes the requested key
as the active day, and keeps it resident. -/
theorem loadDayByDate_inv (st : LoaderCache) (k : ℕ) (h : CacheInv st) :
    CacheInv (loadDayByDate st k)
    ∧ (loadDayByDate st k).activeDayKey = some k
    ∧ k ∈ residents (loadDayByDate st k)
    ∧ (loadDayByDate st k).maxDaysInMemory = st.maxDaysInMemory := by
  obtain ⟨hnd, hsome, hnone, hcount⟩ := h
  unfold loadDayByDate
  by_cases hk : k ∈ residents st
  · rw [if_pos hk]
    have hres : residents { st with activeDayKey := some k } = residents st := rfl
    have hlen : (residents st).length ≤ st.maxDaysInMemory + 1 :=
      residents_length_le st ⟨hnd, hsome, hnone, hcount⟩
    have h3 := length_filter_ne_active (a := k) hnd hk
    refine ⟨⟨?_, ?_, ?_, ?_⟩, rfl, ?_, rfl⟩
    · rw [hres]; exact hnd
    · intro b hb
      injection hb with hb
      subst hb
      rw [hres]; exact hk
    · intro hn; cases hn
    · simp only [nonActiveCount, hres]
      omega
    · rw [hres]; exact hk
  · rw [if_neg hk]
    have hres1 : residents (insertDay st k) = residents st ++ [k] := by
      simp [residents, insertDay]
    have hnd1 : (residents st ++ [k]).Nodup :=
      List.Nodup.append hnd (List.nodup_singleton k)
        (by simpa [List.disjoint_singleton] using hk)
    have h := enforceMemoryLimit_inv (insertDay st k) k
      (by rw [hres1]; exact hnd1) rfl (by rw [hres1]; simp)
    exact ⟨h.1, h.2.1, h.1.2.1 k h.2.1, h.2.2⟩

/-- `loadSeq` preserves the invariant. -/
theorem loadSeq_inv (ks : List ℕ) (st : LoaderCache) (h : CacheInv st) :
    CacheInv (loadSeq st ks) := by
  induction ks generalizing st with
  | nil => exact h
  | cons k ks ih => exact ih _ (loadDayByDate_inv st k h).1

/-- `loadSeq` preserves `maxDaysInMemory`. -/
theorem loadSeq_max (ks : List ℕ) (st : LoaderCache) (h : CacheInv st) :
    (loadSeq st ks).maxDaysInMemory = st.maxDaysInMemory := by
  induction ks generalizing st with
  | nil => rfl
  | cons k ks ih =>
      have h1 := loadDayByDate_inv st k h
      rw [loadSeq, ih _ h1.1, h1.2.2.2]

/-- `loadSeq` over an appended load. -/
theorem loadSeq_append_one (st : LoaderCache) (ks : List ℕ) (k : ℕ) :
    loadSeq st (ks ++ [k]) = loadDayByDate (loadSeq st ks) k := by
  induction ks generalizing st with
  | nil => rfl
  | cons a as ih => simp only [List.cons_append, loadSeq]; exact ih _

/-! ## Claim theorem: bounded day cache -/

/-- C9: starting from the constructor state (max 2 days), after any
sequence of loads at most 2 non-active days remain resident; the most
recently loaded day is the active day and is resident; and whenever
`_enforceMemoryLimit` evicts, every evicted entry is a non-active day whose
large arrays are released, and is chronologically older than every
surviving non-active day. -/
theorem dayCache_spec (ks : List ℕ) (k : ℕ) :
    ((loadSeq initialCache (ks ++ [k])).activeDayKey = some k
      ∧ k ∈ residents (loadSeq initialCache (ks ++ [k])))
    ∧ (∀ ls : List ℕ, nonActiveCount (loadSeq initialCache ls) ≤ 2)
    ∧ (∀ st : LoaderCache, (residents st).Nodup →
        ∀ p ∈ (enforceMemoryLimit st).2,
          some p.1 ≠ st.activeDayKey ∧ p.2.arrays = false
          ∧ ∀ q ∈ (enforceMemoryLimit st).1.loadedDays,
              some q.1 ≠ st.activeDayKey → p.1 < q.1) := by
  refine ⟨?_, ?_, ?_⟩
  · have hpre : CacheInv (loadSeq initialCache ks) :=
      loadSeq_inv ks initialCache initialCache_inv
    have h := loadDayByDate_inv (loadSeq initialCache ks) k hpre
    rw [loadSeq_append_one]
    exact ⟨h.2.1, h.2.2.1⟩
  · intro ls
    have h := loadSeq_inv ls initialCache initialCache_inv
    have hmax := loadSeq_max ls initialCache initialCache_inv
    have := h.2.2.2
    rwa [hmax] at this
  · intro st hnd p hp
    unfold enforceMemoryLimit at hp ⊢
    by_cases hlen : st.loadedDays.length ≤ st.maxDaysInMemory
    · rw [if_pos hlen] at hp
      simp at hp
    · rw [if_neg hlen] at hp ⊢
      replace hp : p ∈ evictedEntries st := hp
      unfold evictedEntries at hp
      simp only [List.mem_map] at hp
      obtain ⟨e, he, rfl⟩ := hp
      have he1 := List.of_mem_filter he
      have he2 := List.mem_of_mem_filter he
      simp only [decide_eq_true_eq] at he1
      have hene : some e.1 ≠ st.activeDayKey := by
        have := List.of_mem_filter he1
        simpa using this
      refine ⟨hene, rfl, ?_⟩
      intro q hq hqne
      replace hq : q ∈ (evictState st).loadedDays := hq
      unfold evictState at hq
      have hq1 := List.of_mem_filter hq
      have hq2 := List.mem_of_mem_filter hq
      simp only [decide_eq_true_eq] at hq1
      have hperm : (sortedKeys st).Perm (residents st) := List.perm_insertionSort _ _
      have hkeysnd : (sortedKeys st).Nodup := hperm.nodup_iff.mpr hnd
      have hsorted : List.Sorted (· ≤ ·) (sortedKeys st) :=
        List.sorted_insertionSort (· ≤ ·) (residents st)
      have hsplit : sortedKeys st =
          (sortedKeys st).take ((sortedKeys st).length - st.maxDaysInMemory)
            ++ (sortedKeys st).drop ((sortedKeys st).length - st.maxDaysInMemory) :=
        (List.take_append_drop _ _).symm
      have hqres : q.1 ∈ residents st := List.mem_map.mpr ⟨q, hq2, rfl⟩
      have hqkeys : q.1 ∈ sortedKeys st := hperm.mem_iff.mpr hqres
      have hqdrop : q.1 ∈
          (sortedKeys st).drop ((sortedKeys st).length - st.maxDaysInMemory) := by
        rw [hsplit] at hqkeys
        rcases List.mem_append.mp hqkeys with hin | hin
        · exfalso
          exact hq1 (List.mem_filter.mpr ⟨hin, by simpa using hqne⟩)
        · exact hin
      have hetk : e.1 ∈
          (sortedKeys st).take ((sortedKeys st).length - st.maxDaysInMemory) :=
        List.mem_of_mem_filter he1
      have hpairle : List.Pairwise (· ≤ ·)
          ((sortedKeys st).take ((sortedKeys st).length - st.maxDaysInMemory)
            ++ (sortedKeys st).drop ((sortedKeys st).length - st.maxDaysInMemory)) := by
        rw [← hsplit]; exact hsorted
      have hpairne : List.Pairwise (· ≠ ·)
          ((sortedKeys st).take ((sortedKeys st).length - st.maxDaysInMemory)
            ++ (sortedKeys st).drop ((sortedKeys st).length - st.maxDaysInMemory)) := by
        rw [← hsplit]; exact hkeysnd
      have hle := (List.pairwise_append.mp hpairle).2.2 e.1 hetk q.1 hqdrop
      have hne := (List.pairwise_append.mp hpairne).2.2 e.1 hetk q.1 hqdrop
      exact lt_of_le_of_ne hle hne

/-- C9 witness: loading days 1, 2, 3 leaves day 3 active and resident; on a
concrete over-full cache (days 1..4, active 4, max 2) the evicted day 1 is
strictly older than the surviving non-active day 3. -/
theorem dayCache_spec_witness :
    (loadSeq initialCache ([1, 2] ++ [3])).activeDayKey = some 3
    ∧ (1 : ℕ) < 3 := by
  have h1 := (dayCache_spec [1, 2] 3).1.1
  have h3 := (dayCache_spec [] 0).2.2
    { loadedDays := [(1, ⟨true⟩), (2, ⟨true⟩), (3, ⟨true⟩), (4, ⟨true⟩)],
      activeDayKey := some 4, maxDaysInMemory := 2 }
    (by decide) (1, ⟨false⟩) (by decide)
  exact ⟨h1, h3.2.2 (3, ⟨true⟩) (by decide) (by decide)⟩

/-! ## Particle engine (part_000, `ParticleEngine3D`)

Random draws (Box–Muller gaussians), square roots and `0.5^x` powers are
supplied as explicit parameters (`g…`, `sqrtFn`, `pow05`), and the constant
`(2π)^1.5` as `twoPiPow`: every theorem below quantifies over them, so it
holds for the floating-point functions the source uses. -/

/-- One pooled particle (part_000 `initializeParticlePool` fields; the
tracer id and release-day stamp are omitted). -/
structure Particle where
  x : ℚ
  y : ℚ
  depth : ℚ
  mass : ℚ
  age : ℚ
  concentration : ℚ
  velocityU : ℚ
  velocityV : ℚ
  active : Bool
  history : List (ℚ × ℚ × ℚ)
deriving DecidableEq, Repr

/-- `hycomLoader.isOcean` as seen by the engine: lon, lat, depth in metres,
simulation day. -/
abbrev OceanOracle := ℚ → ℚ → ℚ → ℚ → Bool

/-- `hycomLoader.getVelocityAt` as seen by the engine. -/
abbrev VelOracle := ℚ → ℚ → ℚ → ℚ → VelResult

/-- Result of `_checkPathToOcean`. -/
structure PathCheck where
  safe : Bool
  lastValidX : ℚ
  lastValidY : ℚ
deriving DecidableEq, Repr

/-- The `for (let s = 1; s <= steps; s++)` loop of `_checkPathToOcean`,
over the remaining sample indices. -/
def checkPathGo (oc : OceanOracle)
    (refLon refLat startX startY stepX stepY depth simDay endX endY : ℚ) :
    List ℕ → PathCheck
  | [] => ⟨true, endX, endY⟩
  | s :: rest =>
      let testX := startX + stepX * (s : ℚ)
      let testY := startY + stepY * (s : ℚ)
      let testLon := refLon + testX / LON_SCALE
      let testLat := refLat + testY / LAT_SCALE
      if oc testLon testLat (depth * 1000) simDay then
        checkPathGo oc refLon refLat startX startY stepX stepY depth simDay
          endX endY rest
      else ⟨false, startX + stepX * ((s - 1 : ℕ) : ℚ),
            startY + stepY * ((s - 1 : ℕ) : ℚ)⟩

/-- `_checkPathToOcean(startX, startY, endX, endY, depth, day, steps)`
(part_000, default `steps = 5`): test `isOcean` at the `steps` sample
points `start + (end − start)·s/steps`, `s = 1..steps`; on the first
failure report unsafe with the previous sample as the last valid
position. -/
def checkPathToOcean (oc : OceanOracle) (refLon refLat : ℚ)
    (startX startY endX endY depth simDay : ℚ) (steps : ℕ) : PathCheck :=
  let stepX := (endX - startX) / (steps : ℚ)
  let stepY := (endY - startY) / (steps : ℚ)
  checkPathGo oc refLon refLat startX startY stepX stepY depth simDay
    endX endY (List.range' 1 steps)

/-- `_checkPathToOcean` of web/particleEngine.js: its own comment says
"Check 5 points along the path" but the constant is `steps = 2`. -/
def webCheckPathToOcean (oc : OceanOracle) (refLon refLat : ℚ)
    (startX startY endX endY depth simDay : ℚ) : PathCheck :=
  checkPathToOcean oc refLon refLat startX startY endX endY depth simDay 2

/-- The Euler branch of the advection stage (part_000 lines 575–587): move
by `u·86.4·Δdays`, keep the move and store the velocity when the path check
passes; otherwise stop at the last valid sample.  The stored velocity is
not modified in the failure case. -/
def eulerAdvectionBlock (oc : OceanOracle) (refLon refLat : ℚ)
    (vel : VelResult) (deltaDays simDay : ℚ) (p : Particle) : Particle :=
  if vel.found then
    let newX := p.x + vel.u * K_UPS * deltaDays
    let newY := p.y + vel.v * K_UPS * deltaDays
    let pc := checkPathToOcean oc refLon refLat p.x p.y newX newY p.depth simDay 5
    if pc.safe then
      { p with x := newX, y := newY, velocityU := vel.u, velocityV := vel.v }
    else { p with x := pc.lastValidX, y := pc.lastValidY }
  else p

/-- Integrator output (`rk4Integrate` / `eulerIntegrate` result record). -/
structure Rk4Out where
  x : ℚ
  y : ℚ
  depth : ℚ
  uAvg : ℚ
  vAvg : ℚ
deriving DecidableEq, Repr

/-- The RK4 branch of the advection stage (part_000 lines 559–574): on a
failed path check the particle stops at the last valid sample and its
stored velocity is zeroed. -/
def rk4AdvectionBlock (oc : OceanOracle) (refLon refLat : ℚ) (r : Rk4Out)
    (simDay : ℚ) (p : Particle) : Particle :=
  let pc := checkPathToOcean oc refLon refLat p.x p.y r.x r.y p.depth simDay 5
  if pc.safe then
    { p with x := r.x, y := r.y, depth := r.depth,
             velocityU := r.uAvg, velocityV := r.vAvg }
  else
    { p with x := pc.lastValidX, y := pc.lastValidY,
             velocityU := 0, velocityV := 0 }

/-- `applyDiffusion` (part_000 lines 457–471): random-walk step scale
`√(2·K·Δdays·86400)/1000` with `K` from the diffusivity service (floor 20
on a miss), applied with two gaussian draws. -/
def applyDiffusion (sqrtFn : ℚ → ℚ) (eke : Option ℚ)
    (diffusivityScale tracerScale g1 g2 deltaDays : ℚ) (p : Particle) :
    Particle :=
  let K :=
    match eke with
    | some k => k * diffusivityScale * tracerScale
    | none => 20 * diffusivityScale
  let stepScale := sqrtFn (2 * K * deltaDays * 86400) / 1000
  { p with x := p.x + stepScale * g1, y := p.y + stepScale * g2 }

/-- The diffusion sub-step with its path guard (part_000 lines 590–598): a
failed check reverts to the pre-diffusion position (not to the last valid
sample). -/
def diffusionBlock (oc : OceanOracle) (refLon refLat : ℚ)
    (sqrtFn : ℚ → ℚ) (eke : Option ℚ)
    (diffusivityScale tracerScale g1 g2 deltaDays simDay : ℚ)
    (p : Particle) : Particle :=
  let beforeX := p.x
  let beforeY := p.y
  let p1 := applyDiffusion sqrtFn eke diffusivityScale tracerScale g1 g2
    deltaDays p
  let dc := checkPathToOcean oc refLon refLat beforeX beforeY p1.x p1.y
    p1.depth simDay 5
  if dc.safe then p1 else { p1 with x := beforeX, y := beforeY }

/-- `checkLandInteraction` (part_000 lines 396–431): if the current
position is not ocean, revert to the pre-step position and, when a nearby
ocean cell is found at nonzero distance, move halfway toward it.  The
JavaScript guard `dist > 0` on `dist = √(dx²+dy²)` is modelled by the
equivalent `dx² + dy² > 0`. -/
def checkLandInteraction (oc : OceanOracle)
    (nearest : ℚ → ℚ → ℚ → ℚ → Option (ℚ × ℚ)) (refLon refLat : ℚ)
    (prevX prevY prevDepth simDay : ℚ) (p : Particle) : Particle × Bool :=
  let lon := refLon + p.x / LON_SCALE
  let lat := refLat + p.y / LAT_SCALE
  let depthMeters := p.depth * 1000
  if oc lon lat depthMeters simDay then (p, false)
  else
    let p1 := { p with x := prevX, y := prevY, depth := prevDepth }
    match nearest lon lat depthMeters simDay with
    | none => (p1, true)
    | some (clon, clat) =>
        let targetX := (clon - refLon) * LON_SCALE
        let targetY := (clat - refLat) * LAT_SCALE
        let dx := targetX - prevX
        let dy := targetY - prevY
        if 0 < dx ^ 2 + dy ^ 2 then
          ({ p1 with x := prevX + dx * (1 / 2), y := prevY + dy * (1 / 2) },
            true)
        else (p1, true)

/-- The `kzProfile` configuration record. -/
structure KzProfile where
  mixedLayerDepth : ℚ
  mixedLayerKz : ℚ
  upperOceanDepth : ℚ
  upperOceanKz : ℚ
  deepOceanKz : ℚ
deriving DecidableEq, Repr

/-- Default profile: 1e-2 above 50 m, 1e-4 above 200 m, 5e-5 below. -/
def defaultKzProfile : KzProfile :=
  { mixedLayerDepth := 50, mixedLayerKz := 1 / 100
    upperOceanDepth := 200, upperOceanKz := 1 / 10000
    deepOceanKz := 1 / 20000 }

/-- `getVerticalDiffusivity`. -/
def getVerticalDiffusivity (kz : KzProfile) (depthMeters : ℚ) : ℚ :=
  if depthMeters < kz.mixedLayerDepth then kz.mixedLayerKz
  else if depthMeters < kz.upperOceanDepth then kz.upperOceanKz
  else kz.deepOceanKz

/-- The `params` options the vertical stage reads. -/
structure EngineParams where
  diffusivityScale : ℚ
  verticalMixing : Bool
  ekmanPumping : ℚ
  convectiveMixing : ℚ
deriving DecidableEq, Repr

/-- `applyVerticalMotion` (part_000 lines 475–496): random + settling +
deterministic displacement in metres (convective mixing added only in
winter above 100 m), divided by 1000 and clamped to [0, 1]. -/
def applyVerticalMotion (sqrtFn : ℚ → ℚ) (g : ℚ) (params : EngineParams)
    (kz : KzProfile) (settling : ℚ) (dayOfYear : ℕ) (dtSeconds : ℚ)
    (p : Particle) : Particle :=
  let depthM := p.depth * 1000
  let kzv := getVerticalDiffusivity kz depthM
  let randomDz := sqrtFn (2 * kzv * dtSeconds) * g
  let settlingDz := settling * dtSeconds / 86400
  let deterministicDz :=
    if (dayOfYear < 90 ∨ 335 < dayOfYear) ∧ depthM < 100 then
      params.ekmanPumping * dtSeconds + params.convectiveMixing * dtSeconds
    else params.ekmanPumping * dtSeconds
  let d1 := p.depth + (randomDz + settlingDz + deterministicDz) / 1000
  { p with depth := max 0 (min d1 1) }

/-- `calculateConcentration` (part_000 lines 506–520): kernel volume
`(2π)^1.5·σH²·σV` (the constant `(2π)^1.5` passed as `twoPiPow`), mass
decayed by age when the tracer decays and has a half-life. -/
def calculateConcentration (pow05 : ℚ → ℚ) (twoPiPow : ℚ) (tracer : Tracer)
    (p : Particle) : ℚ :=
  let sigmaH := tracer.behavior.sigmaH
  let sigmaV := tracer.behavior.sigmaV
  let volume := twoPiPow * sigmaH * sigmaH * sigmaV
  let mass :=
    if tracer.behavior.decay = true ∧ tracer.halfLife ≠ 0 then
      p.mass * pow05 (p.age / tracer.halfLife)
    else p.mass
  mass / max volume 1000000000

/-- The aging stage of part_000 `updateParticles` (lines 611–618): the age
advances and the concentration is recomputed; the stored mass is not
changed and no deactivation happens. -/
def agingStage3D (pow05 : ℚ → ℚ) (twoPiPow : ℚ) (tracer : Tracer)
    (deltaDays : ℚ) (p : Particle) : Particle :=
  let p1 := { p with age := p.age + deltaDays }
  { p1 with concentration := calculateConcentration pow05 twoPiPow tracer p1 }

/-- The history stage (part_000 lines 622–625): push the position when it
moved more than 1 km in x or y, keeping at most 8 entries. -/
def historyStage (prevX prevY : ℚ) (p : Particle) : Particle :=
  if 1 < |p.x - prevX| ∨ 1 < |p.y - prevY| then
    let h1 := p.history ++ [(p.x, p.y, p.depth)]
    { p with history := if 8 < h1.length then h1.drop 1 else h1 }
  else p

/-- Stage 5 of web/particleEngine.js `updateParticles` (lines 1547–1558):
age advances; when decay is enabled the mass is multiplied by
`0.5^(Δdays/halfLife)` and the particle is deactivated (with the decayed
counter incremented, returned here as the second component) when the mass
falls below the absolute threshold 0.001. -/
def webDecayStage (pow05 : ℚ → ℚ) (decayEnabled : Bool) (halfLife : ℚ)
    (deltaDays : ℚ) (p : Particle) : Particle × ℕ :=
  let p1 := { p with age := p.age + deltaDays }
  if decayEnabled then
    let m := p1.mass * pow05 (deltaDays / halfLife)
    let p2 := { p1 with mass := m }
    if m < 1 / 1000 then ({ p2 with active := false }, 1) else (p2, 0)
  else (p1, 0)

/-! ### RK4 and Euler integrators (part_000 lines 695–792) -/

/-- The engine's depth snap (part_000 `getVelocityAt` wrapper, lines
656–663): the nearest available depth, first winner on ties. -/
def snapDepth (depths : List ℚ) (depthMeters : ℚ) : ℚ :=
  match depths with
  | [] => 0
  | d0 :: _ =>
      (depths.foldl
        (fun (b : ℚ × ℚ) d =>
          if |depthMeters - d| < b.2 then (d, |depthMeters - d|) else b)
        (d0, |depthMeters - d0|)).1

/-- `ParticleEngine3D.getVelocityAt`: snap the depth, then query the
loader. -/
def engineGetVelocityAt (lvel : VelOracle) (depths : List ℚ)
    (lon lat depthMeters simDay : ℚ) : VelResult :=
  lvel lon lat (snapDepth depths depthMeters) simDay

/-- One RK4 sub-step (part_000 `rk4Step`): four velocity samples at the
standard offsets; a land sample substitutes the k1 value; failure (`none`)
exactly when k1 itself is not found.  Depth is passed through unchanged. -/
def rk4Step (lvel : VelOracle) (depths : List ℚ) (refLon refLat : ℚ)
    (x y depth h currentTime : ℚ) : Option Rk4Out :=
  let depthMeters := depth * 1000
  let k1 := engineGetVelocityAt lvel depths (refLon + x / LON_SCALE)
    (refLat + y / LAT_SCALE) depthMeters currentTime
  if k1.found then
    let x2 := x + h / 2 * k1.u * K_UPS
    let y2 := y + h / 2 * k1.v * K_UPS
    let k2 := engineGetVelocityAt lvel depths (refLon + x2 / LON_SCALE)
      (refLat + y2 / LAT_SCALE) depthMeters (currentTime + h / 2)
    let k2u := if k2.found then k2.u else k1.u
    let k2v := if k2.found then k2.v else k1.v
    let x3 := x + h / 2 * k2u * K_UPS
    let y3 := y + h / 2 * k2v * K_UPS
    let k3 := engineGetVelocityAt lvel depths (refLon + x3 / LON_SCALE)
      (refLat + y3 / LAT_SCALE) depthMeters (currentTime + h / 2)
    let k3u := if k3.found then k3.u else k1.u
    let k3v := if k3.found then k3.v else k1.v
    let x4 := x + h * k3u * K_UPS
    let y4 := y + h * k3v * K_UPS
    let k4 := engineGetVelocityAt lvel depths (refLon + x4 / LON_SCALE)
      (refLat + y4 / LAT_SCALE) depthMeters (currentTime + h)
    let k4u := if k4.found then k4.u else k1.u
    let k4v := if k4.found then k4.v else k1.v
    let uAvg := (k1.u + 2 * k2u + 2 * k3u + k4u) / 6
    let vAvg := (k1.v + 2 * k2v + 2 * k3v + k4v) / 6
    some ⟨x + h * uAvg * K_UPS, y + h * vAvg * K_UPS, depth, uAvg, vAvg⟩
  else none

/-- The sub-step loop of `rk4Integrate`: `n` remaining sub-steps of size
`actualStep` out of `steps`, accumulating position and the velocity sums. -/
def rk4Loop (lvel : VelOracle) (depths : List ℚ) (refLon refLat : ℚ)
    (actualStep simDay : ℚ) (steps : ℕ) :
    ℕ → ℚ × ℚ × ℚ × ℚ × ℚ → Option (ℚ × ℚ × ℚ × ℚ × ℚ)
  | 0, acc => some acc
  | n + 1, (x, y, d, tu, tv) =>
      let stepIdx := steps - (n + 1)
      match rk4Step lvel depths refLon refLat x y d actualStep
          (simDay + (stepIdx : ℚ) * actualStep) with
      | none => none
      | some r => rk4Loop lvel depths refLon refLat actualStep simDay steps
          n (r.x, r.y, r.depth, tu + r.uAvg, tv + r.vAvg)

/-- `rk4Integrate` for a given sub-step size `h`: `steps = ⌈Δdays/h⌉` equal
sub-steps of `Δdays/steps`; `none` when some sub-step fails (the caller
then falls back to Euler). -/
def rk4IntegrateWith (lvel : VelOracle) (depths : List ℚ)
    (refLon refLat : ℚ) (p : Particle) (deltaDays simDay h : ℚ) :
    Option Rk4Out :=
  let steps : ℕ := ⌈deltaDays / h⌉.toNat
  let actualStep := deltaDays / (steps : ℚ)
  match rk4Loop lvel depths refLon refLat actualStep simDay steps steps
      (p.x, p.y, p.depth, 0, 0) with
  | none => none
  | some (x, y, d, tu, tv) =>
      some ⟨x, y, d, tu / (steps : ℚ), tv / (steps : ℚ)⟩

/-- `eulerIntegrate`: one step of `Δdays·u·86.4`, or no move when the
velocity is not found. -/
def eulerIntegrate (lvel : VelOracle) (depths : List ℚ)
    (refLon refLat : ℚ) (p : Particle) (deltaDays simDay : ℚ) : Rk4Out :=
  let velr := engineGetVelocityAt lvel depths (refLon + p.x / LON_SCALE)
    (refLat + p.y / LAT_SCALE) (p.depth * 1000) simDay
  if velr.found then
    ⟨p.x + deltaDays * velr.u * K_UPS, p.y + deltaDays * velr.v * K_UPS,
      p.depth, velr.u, velr.v⟩
  else ⟨p.x, p.y, p.depth, 0, 0⟩

/-- `rk4Settings` (fields the step-size policy reads). -/
structure Rk4Settings where
  timeStepSafety : ℚ
  adaptiveStepSize : Bool
  minStepSize : ℚ
  maxStepSize : ℚ
deriving DecidableEq, Repr

/-- `calculateOptimalStepSize`. -/
def calculateOptimalStepSize (s : Rk4Settings) (sqrtFn : ℚ → ℚ)
    (velocityU velocityV totalDeltaDays : ℚ) : ℚ :=
  if s.adaptiveStepSize then
    let speed := sqrtFn (velocityU * velocityU + velocityV * velocityV)
    let charTime := 1 / (speed + 1 / 1000)
    let optimalStep := min (charTime * s.timeStepSafety) s.maxStepSize
    let optimalStep2 := max optimalStep s.minStepSize
    min optimalStep2 totalDeltaDays
  else min totalDeltaDays s.maxStepSize

/-- `rk4Integrate` (part_000 lines 695–716) with the Euler fallback on a
failed sub-step. -/
def rk4Integrate (lvel : VelOracle) (depths : List ℚ) (refLon refLat : ℚ)
    (settings : Rk4Settings) (sqrtFn : ℚ → ℚ) (p : Particle)
    (deltaDays simDay : ℚ) : Rk4Out :=
  let h := calculateOptimalStepSize settings sqrtFn p.velocityU p.velocityV
    deltaDays
  match rk4IntegrateWith lvel depths refLon refLat p deltaDays simDay h with
  | some r => r
  | none => eulerIntegrate lvel depths refLon refLat p deltaDays simDay

/-! ### The full per-particle update (part_000 lines 553–626) -/

/-- Everything the per-particle update reads: the field-service oracles,
the batched group velocity, the random draws for this particle, and the
engine configuration.  `rk4Enabled` stands for the conjunction
`rk4Enabled && rk4Settings.enabled` (both are set together by
`enableRK4`). -/
structure StepEnv where
  oc : OceanOracle
  nearest : ℚ → ℚ → ℚ → ℚ → Option (ℚ × ℚ)
  lvel : VelOracle
  depths : List ℚ
  groupVel : VelResult
  eke : Option ℚ
  hasEke : Bool
  sqrtFn : ℚ → ℚ
  pow05 : ℚ → ℚ
  twoPiPow : ℚ
  g1 : ℚ
  g2 : ℚ
  g3 : ℚ
  refLon : ℚ
  refLat : ℚ
  landEnabled : Bool
  rk4Enabled : Bool
  rk4Settings : Rk4Settings
  params : EngineParams
  kz : KzProfile
  tracer : Tracer
  dayOfYear : ℕ

/-- The advection stage: RK4 branch when enabled (both flags are set
together by `enableRK4`), else the Euler branch on the batched group
velocity. -/
def advectionStage (env : StepEnv) (deltaDays simDay : ℚ) (p : Particle) :
    Particle :=
  if env.rk4Enabled then
    rk4AdvectionBlock env.oc env.refLon env.refLat
      (rk4Integrate env.lvel env.depths env.refLon env.refLat
        env.rk4Settings env.sqrtFn p deltaDays simDay) simDay p
  else
    eulerAdvectionBlock env.oc env.refLon env.refLat env.groupVel
      deltaDays simDay p

/-- The diffusion stage, gated on the diffusivity loader being present and
`diffusivityScale > 0.01`. -/
def diffusionStage (env : StepEnv) (deltaDays simDay : ℚ) (p : Particle) :
    Particle :=
  if env.hasEke ∧ 1 / 100 < env.params.diffusivityScale then
    diffusionBlock env.oc env.refLon env.refLat env.sqrtFn env.eke
      env.params.diffusivityScale env.tracer.behavior.diffusivityScale
      env.g1 env.g2 deltaDays simDay p
  else p

/-- The land-check stage, gated on `landSettings.enabled` (and the loader
being present). -/
def landStage (env : StepEnv) (prevX prevY prevDepth simDay : ℚ)
    (p : Particle) : Particle × Bool :=
  if env.landEnabled then
    checkLandInteraction env.oc env.nearest env.refLon env.refLat
      prevX prevY prevDepth simDay p
  else (p, false)

/-- The vertical-motion stage, gated on `params.verticalMixing`. -/
def verticalStage (env : StepEnv) (deltaDays : ℚ) (p : Particle) :
    Particle :=
  if env.params.verticalMixing then
    applyVerticalMotion env.sqrtFn env.g3 env.params env.kz
      env.tracer.behavior.settlingVelocity env.dayOfYear
      (deltaDays * 86400) p
  else p

/-- One pass of the per-particle body of `updateParticles` (part_000 lines
553–626): advection (guarded by the path check), diffusion (guarded), land
check, then — unless the particle was on land — vertical motion, aging,
concentration and history.  Returns the particle and the on-land flag. -/
def updateParticleStep (env : StepEnv) (deltaDays simDay : ℚ)
    (p : Particle) : Particle × Bool :=
  let prevX := p.x
  let prevY := p.y
  let prevDepth := p.depth
  let p2 := diffusionStage env deltaDays simDay
    (advectionStage env deltaDays simDay p)
  let landRes := landStage env prevX prevY prevDepth simDay p2
  if landRes.2 then (landRes.1, true)
  else
    (historyStage prevX prevY
      (agingStage3D env.pow05 env.twoPiPow env.tracer deltaDays
        (verticalStage env deltaDays landRes.1)), false)

/-- Activation of one pooled particle inside `releaseParticles` (part_000
lines 323–352): gaussian position sample hard-clamped to ±3σ around the
reference point, `depth = 0`, `age = 0`, calibrated mass. -/
def releaseActivate (pow05 : ℚ → ℚ) (twoPiPow : ℚ) (tracer : Tracer)
    (refLon refLat unitsPerParticle z0 z1 : ℚ) (p : Particle) : Particle :=
  let SIGMA := 20 / LON_SCALE
  let lon := refLon + z0 * SIGMA
  let lat := refLat + z1 * SIGMA
  let clampedLon := max (refLon - SIGMA * 3) (min (refLon + SIGMA * 3) lon)
  let clampedLat := max (refLat - SIGMA * 3) (min (refLat + SIGMA * 3) lat)
  let x := (clampedLon - refLon) * LON_SCALE
  let y := (clampedLat - refLat) * LAT_SCALE
  let p1 := { p with x := x, y := y, depth := 0, active := true, age := 0,
                     mass := unitsPerParticle }
  { p1 with concentration := calculateConcentration pow05 twoPiPow tracer p1,
            history := [(x, y, 0)] }

/-! ### Frame lemmas: what each stage leaves untouched -/

theorem eulerAdvectionBlock_frame (oc : OceanOracle) (refLon refLat : ℚ)
    (vel : VelResult) (deltaDays simDay : ℚ) (p : Particle) :
    (eulerAdvectionBlock oc refLon refLat vel deltaDays simDay p).mass = p.mass
    ∧ (eulerAdvectionBlock oc refLon refLat vel deltaDays simDay p).active = p.active
    ∧ (eulerAdvectionBlock oc refLon refLat vel deltaDays simDay p).age = p.age
    ∧ (eulerAdvectionBlock oc refLon refLat vel deltaDays simDay p).depth = p.depth := by
  unfold eulerAdvectionBlock
  dsimp only
  split
  · split <;> exact ⟨rfl, rfl, rfl, rfl⟩
  · exact ⟨rfl, rfl, rfl, rfl⟩

theorem rk4AdvectionBlock_frame (oc : OceanOracle) (refLon refLat : ℚ)
    (r : Rk4Out) (simDay : ℚ) (p : Particle) :
    (rk4AdvectionBlock oc refLon refLat r simDay p).mass = p.mass
    ∧ (rk4AdvectionBlock oc refLon refLat r simDay p).active = p.active
    ∧ (rk4AdvectionBlock oc refLon refLat r simDay p).age = p.age
    ∧ ((rk4AdvectionBlock oc refLon refLat r simDay p).depth = r.depth
        ∨ (rk4AdvectionBlock oc refLon refLat r simDay p).depth = p.depth) := by
  unfold rk4AdvectionBlock
  dsimp only
  split
  · exact ⟨rfl, rfl, rfl, Or.inl rfl⟩
  · exact ⟨rfl, rfl, rfl, Or.inr rfl⟩

theorem diffusionBlock_frame (oc : OceanOracle) (refLon refLat : ℚ)
    (sqrtFn : ℚ → ℚ) (eke : Option ℚ)
    (diffusivityScale tracerScale g1 g2 deltaDays simDay : ℚ) (p : Particle) :
    (diffusionBlock oc refLon refLat sqrtFn eke diffusivityScale tracerScale
        g1 g2 deltaDays simDay p).mass = p.mass
    ∧ (diffusionBlock oc refLon refLat sqrtFn eke diffusivityScale tracerScale
        g1 g2 deltaDays simDay p).active = p.active
    ∧ (diffusionBlock oc refLon refLat sqrtFn eke diffusivityScale tracerScale
        g1 g2 deltaDays simDay p).age = p.age
    ∧ (diffusionBlock oc refLon refLat sqrtFn eke diffusivityScale tracerScale
        g1 g2 deltaDays simDay p).depth = p.depth := by
  unfold diffusionBlock applyDiffusion
  dsimp only
  split <;> exact ⟨rfl, rfl, rfl, rfl⟩

theorem checkLandInteraction_frame (oc : OceanOracle)
    (nearest : ℚ → ℚ → ℚ → ℚ → Option (ℚ × ℚ)) (refLon refLat : ℚ)
    (prevX prevY prevDepth simDay : ℚ) (p : Particle) :
    (checkLandInteraction oc nearest refLon refLat prevX prevY prevDepth
        simDay p).1.mass = p.mass
    ∧ (checkLandInteraction oc nearest refLon refLat prevX prevY prevDepth
        simDay p).1.active = p.active
    ∧ (checkLandInteraction oc nearest refLon refLat prevX prevY prevDepth
        simDay p).1.age = p.age
    ∧ ((checkLandInteraction oc nearest refLon refLat prevX prevY prevDepth
        simDay p).1.depth = p.depth
      ∨ (checkLandInteraction oc nearest refLon refLat prevX prevY prevDepth
        simDay p).1.depth = prevDepth) := by
  unfold checkLandInteraction
  dsimp only
  split
  · exact ⟨rfl, rfl, rfl, Or.inl rfl⟩
  · split
    · exact ⟨rfl, rfl, rfl, Or.inr rfl⟩
    · split
      · exact ⟨rfl, rfl, rfl, Or.inr rfl⟩
      · exact ⟨rfl, rfl, rfl, Or.inr rfl⟩

theorem applyVerticalMotion_frame (sqrtFn : ℚ → ℚ) (g : ℚ)
    (params : EngineParams) (kz : KzProfile) (settling : ℚ) (dayOfYear : ℕ)
    (dtSeconds : ℚ) (p : Particle) :
    (applyVerticalMotion sqrtFn g params kz settling dayOfYear dtSeconds
        p).mass = p.mass
    ∧ (applyVerticalMotion sqrtFn g params kz settling dayOfYear dtSeconds
        p).active = p.active
    ∧ (applyVerticalMotion sqrtFn g params kz settling dayOfYear dtSeconds
        p).age = p.age := by
  unfold applyVerticalMotion
  dsimp only
  exact ⟨rfl, rfl, rfl⟩

/-- The vertical clamp: the resulting depth lies in [0, 1] whatever the
displacement was. -/
theorem applyVerticalMotion_depth_mem (sqrtFn : ℚ → ℚ) (g : ℚ)
    (params : EngineParams) (kz : KzProfile) (settling : ℚ) (dayOfYear : ℕ)
    (dtSeconds : ℚ) (p : Particle) :
    0 ≤ (applyVerticalMotion sqrtFn g params kz settling dayOfYear dtSeconds
        p).depth
    ∧ (applyVerticalMotion sqrtFn g params kz settling dayOfYear dtSeconds
        p).depth ≤ 1 := by
  unfold applyVerticalMotion
  dsimp only
  refine ⟨le_max_left _ _, ?_⟩
  exact max_le (by norm_num) (min_le_right _ _)

theorem agingStage3D_frame (pow05 : ℚ → ℚ) (twoPiPow : ℚ) (tracer : Tracer)
    (deltaDays : ℚ) (p : Particle) :
    (agingStage3D pow05 twoPiPow tracer deltaDays p).mass = p.mass
    ∧ (agingStage3D pow05 twoPiPow tracer deltaDays p).active = p.active
    ∧ (agingStage3D pow05 twoPiPow tracer deltaDays p).depth = p.depth
    ∧ (agingStage3D pow05 twoPiPow tracer deltaDays p).age = p.age + deltaDays := by
  unfold agingStage3D
  dsimp only
  exact ⟨rfl, rfl, rfl, rfl⟩

theorem historyStage_frame (prevX prevY : ℚ) (p : Particle) :
    (historyStage prevX prevY p).mass = p.mass
    ∧ (historyStage prevX prevY p).active = p.active
    ∧ (historyStage prevX prevY p).age = p.age
    ∧ (historyStage prevX prevY p).depth = p.depth := by
  unfold historyStage
  dsimp only
  split <;> exact ⟨rfl, rfl, rfl, rfl⟩

/-! ### RK4 passes depth through unchanged -/

theorem rk4Step_depth (lvel : VelOracle) (depths : List ℚ)
    (refLon refLat x y d h t : ℚ) (r : Rk4Out)
    (hr : rk4Step lvel depths refLon refLat x y d h t = some r) :
    r.depth = d := by
  unfold rk4Step at hr
  dsimp only at hr
  split at hr
  · injection hr with hr
    subst hr
    rfl
  · exact absurd hr (by simp)

theorem rk4Loop_depth (lvel : VelOracle) (depths : List ℚ)
    (refLon refLat actualStep simDay : ℚ) (steps : ℕ) :
    ∀ (n : ℕ) (x y d tu tv : ℚ) (out : ℚ × ℚ × ℚ × ℚ × ℚ),
      rk4Loop lvel depths refLon refLat actualStep simDay steps n
          (x, y, d, tu, tv) = some out →
      out.2.2.1 = d := by
  intro n
  induction n with
  | zero =>
      intro x y d tu tv out h
      injection h with h
      subst h
      rfl
  | succ n ih =>
      intro x y d tu tv out h
      unfold rk4Loop at h
      dsimp only at h
      cases hs : rk4Step lvel depths refLon refLat x y d actualStep
          (simDay + ((steps - (n + 1) : ℕ) : ℚ) * actualStep) with
      | none => rw [hs] at h; cases h
      | some r =>
          rw [hs] at h
          have hd := rk4Step_depth lvel depths refLon refLat x y d actualStep
            (simDay + ((steps - (n + 1) : ℕ) : ℚ) * actualStep) r hs
          have := ih r.x r.y r.depth (tu + r.uAvg) (tv + r.vAvg) out h
          rw [this, hd]

theorem rk4IntegrateWith_depth (lvel : VelOracle) (depths : List ℚ)
    (refLon refLat : ℚ) (p : Particle) (deltaDays simDay h : ℚ) (r : Rk4Out)
    (hr : rk4IntegrateWith lvel depths refLon refLat p deltaDays simDay h
      = some r) :
    r.depth = p.depth := by
  unfold rk4IntegrateWith at hr
  dsimp only at hr
  cases hl : rk4Loop lvel depths refLon refLat
      (deltaDays / ((⌈deltaDays / h⌉.toNat : ℕ) : ℚ)) simDay
      ⌈deltaDays / h⌉.toNat ⌈deltaDays / h⌉.toNat
      (p.x, p.y, p.depth, 0, 0) with
  | none => rw [hl] at hr; cases hr
  | some out =>
      rw [hl] at hr
      obtain ⟨x, y, d, tu, tv⟩ := out
      injection hr with hr
      subst hr
      have := rk4Loop_depth lvel depths refLon refLat _ simDay _ _
        p.x p.y p.depth 0 0 (x, y, d, tu, tv) hl
      simpa using this

theorem eulerIntegrate_depth (lvel : VelOracle) (depths : List ℚ)
    (refLon refLat : ℚ) (p : Particle) (deltaDays simDay : ℚ) :
    (eulerIntegrate lvel depths refLon refLat p deltaDays simDay).depth
      = p.depth := by
  unfold eulerIntegrate
  dsimp only
  split <;> rfl

theorem rk4Integrate_depth (lvel : VelOracle) (depths : List ℚ)
    (refLon refLat : ℚ) (settings : Rk4Settings) (sqrtFn : ℚ → ℚ)
    (p : Particle) (deltaDays simDay : ℚ) :
    (rk4Integrate lvel depths refLon refLat settings sqrtFn p deltaDays
        simDay).depth = p.depth := by
  unfold rk4Integrate
  cases hr : rk4IntegrateWith lvel depths refLon refLat p deltaDays simDay
      (calculateOptimalStepSize settings sqrtFn p.velocityU p.velocityV
        deltaDays) with
  | none => simp only [hr]; exact eulerIntegrate_depth ..
  | some r =>
      simp only [hr]
      exact rk4IntegrateWith_depth lvel depths refLon refLat p deltaDays
        simDay _ r hr

/-! ### Path-check characterisation -/

/-- `checkPathGo` is safe exactly when every listed sample is ocean. -/
theorem checkPathGo_safe_iff (oc : OceanOracle)
    (refLon refLat sx sy stepX stepY depth simDay ex ey : ℚ) (l : List ℕ) :
    (checkPathGo oc refLon refLat sx sy stepX stepY depth simDay ex ey
        l).safe = true
    ↔ ∀ s ∈ l, oc (refLon + (sx + stepX * (s : ℚ)) / LON_SCALE)
        (refLat + (sy + stepY * (s : ℚ)) / LAT_SCALE) (depth * 1000) simDay
          = true := by
  induction l with
  | nil => simp [checkPathGo]
  | cons s rest ih =>
      unfold checkPathGo
      dsimp only
      by_cases h : oc (refLon + (sx + stepX * (s : ℚ)) / LON_SCALE)
          (refLat + (sy + stepY * (s : ℚ)) / LAT_SCALE) (depth * 1000) simDay
            = true
      · rw [if_pos h]
        simp [List.forall_mem_cons, ih, h]
      · rw [if_neg h]
        simp [List.forall_mem_cons, h]

/-- On the first failing sample `j`, `checkPathGo` stops with the previous
sample as the last valid position. -/
theorem checkPathGo_fail (oc : OceanOracle)
    (refLon refLat sx sy stepX stepY depth simDay ex ey : ℚ)
    (l1 : List ℕ) (j : ℕ) (l2 : List ℕ)
    (hok : ∀ s ∈ l1, oc (refLon + (sx + stepX * (s : ℚ)) / LON_SCALE)
        (refLat + (sy + stepY * (s : ℚ)) / LAT_SCALE) (depth * 1000) simDay
          = true)
    (hbad : oc (refLon + (sx + stepX * (j : ℚ)) / LON_SCALE)
        (refLat + (sy + stepY * (j : ℚ)) / LAT_SCALE) (depth * 1000) simDay
          = false) :
    checkPathGo oc refLon refLat sx sy stepX stepY depth simDay ex ey
        (l1 ++ j :: l2)
      = ⟨false, sx + stepX * ((j - 1 : ℕ) : ℚ),
          sy + stepY * ((j - 1 : ℕ) : ℚ)⟩ := by
  induction l1 with
  | nil =>
      rw [List.nil_append]
      unfold checkPathGo
      dsimp only
      rw [if_neg (by simp [hbad])]
  | cons s l1 ih =>
      rw [List.cons_append]
      unfold checkPathGo
      dsimp only
      rw [if_pos (hok s (List.mem_cons_self ..))]
      exact ih fun t ht => hok t (List.mem_cons_of_mem _ ht)

/-! ### Stage-composition lemmas -/

theorem advectionStage_depth (env : StepEnv) (deltaDays simDay : ℚ)
    (p : Particle) :
    (advectionStage env deltaDays simDay p).depth = p.depth := by
  unfold advectionStage
  split
  · rcases (rk4AdvectionBlock_frame env.oc env.refLon env.refLat
      (rk4Integrate env.lvel env.depths env.refLon env.refLat
        env.rk4Settings env.sqrtFn p deltaDays simDay) simDay p).2.2.2
      with h | h
    · rw [h, rk4Integrate_depth]
    · exact h
  · exact (eulerAdvectionBlock_frame env.oc env.refLon env.refLat
      env.groupVel deltaDays simDay p).2.2.2

theorem advectionStage_frame (env : StepEnv) (deltaDays simDay : ℚ)
    (p : Particle) :
    (advectionStage env deltaDays simDay p).mass = p.mass
    ∧ (advectionStage env deltaDays simDay p).active = p.active
    ∧ (advectionStage env deltaDays simDay p).age = p.age := by
  unfold advectionStage
  split
  · have h := rk4AdvectionBlock_frame env.oc env.refLon env.refLat
      (rk4Integrate env.lvel env.depths env.refLon env.refLat
        env.rk4Settings env.sqrtFn p deltaDays simDay) simDay p
    exact ⟨h.1, h.2.1, h.2.2.1⟩
  · have h := eulerAdvectionBlock_frame env.oc env.refLon env.refLat
      env.groupVel deltaDays simDay p
    exact ⟨h.1, h.2.1, h.2.2.1⟩

theorem diffusionStage_frame (env : StepEnv) (deltaDays simDay : ℚ)
    (p : Particle) :
    (diffusionStage env deltaDays simDay p).mass = p.mass
    ∧ (diffusionStage env deltaDays simDay p).active = p.active
    ∧ (diffusionStage env deltaDays simDay p).age = p.age
    ∧ (diffusionStage env deltaDays simDay p).depth = p.depth := by
  unfold diffusionStage
  split
  · exact diffusionBlock_frame ..
  · exact ⟨rfl, rfl, rfl, rfl⟩

theorem landStage_frame (env : StepEnv) (prevX prevY prevDepth simDay : ℚ)
    (p : Particle) :
    (landStage env prevX prevY prevDepth simDay p).1.mass = p.mass
    ∧ (landStage env prevX prevY prevDepth simDay p).1.active = p.active
    ∧ (landStage env prevX prevY prevDepth simDay p).1.age = p.age
    ∧ ((landStage env prevX prevY prevDepth simDay p).1.depth = p.depth
        ∨ (landStage env prevX prevY prevDepth simDay p).1.depth
            = prevDepth) := by
  unfold landStage
  split
  · exact checkLandInteraction_frame ..
  · exact ⟨rfl, rfl, rfl, Or.inl rfl⟩

theorem verticalStage_frame (env : StepEnv) (deltaDays : ℚ) (p : Particle) :
    (verticalStage env deltaDays p).mass = p.mass
    ∧ (verticalStage env deltaDays p).active = p.active
    ∧ (verticalStage env deltaDays p).age = p.age := by
  unfold verticalStage
  split
  · exact applyVerticalMotion_frame ..
  · exact ⟨rfl, rfl, rfl⟩

theorem verticalStage_depth_mem (env : StepEnv) (deltaDays : ℚ)
    (p : Particle) (h0 : 0 ≤ p.depth) (h1 : p.depth ≤ 1) :
    0 ≤ (verticalStage env deltaDays p).depth
    ∧ (verticalStage env deltaDays p).depth ≤ 1 := by
  unfold verticalStage
  split
  · exact applyVerticalMotion_depth_mem ..
  · exact ⟨h0, h1⟩

/-- Depth stays in [0, 1] across one full pipeline step. -/
theorem updateParticleStep_depth (env : StepEnv) (deltaDays simDay : ℚ)
    (p : Particle) (h0 : 0 ≤ p.depth) (h1 : p.depth ≤ 1) :
    0 ≤ (updateParticleStep env deltaDays simDay p).1.depth
    ∧ (updateParticleStep env deltaDays simDay p).1.depth ≤ 1 := by
  unfold updateParticleStep
  dsimp only
  set pa := advectionStage env deltaDays simDay p with hpa
  set pd := diffusionStage env deltaDays simDay pa with hpd
  set lr := landStage env p.x p.y p.depth simDay pd with hlr
  have hadv : pa.depth = p.depth := advectionStage_depth env deltaDays simDay p
  have hdiff : pd.depth = pa.depth :=
    (diffusionStage_frame env deltaDays simDay pa).2.2.2
  have hland := (landStage_frame env p.x p.y p.depth simDay pd).2.2.2
  have hld : 0 ≤ lr.1.depth ∧ lr.1.depth ≤ 1 := by
    rcases hland with h | h <;> rw [hlr, h]
    · rw [hdiff, hadv]; exact ⟨h0, h1⟩
    · exact ⟨h0, h1⟩
  split
  · exact hld
  · have hvert := verticalStage_depth_mem env deltaDays lr.1 hld.1 hld.2
    have haging := (agingStage3D_frame env.pow05 env.twoPiPow env.tracer
      deltaDays (verticalStage env deltaDays lr.1)).2.2.1
    have hhist := (historyStage_frame p.x p.y
      (agingStage3D env.pow05 env.twoPiPow env.tracer deltaDays
        (verticalStage env deltaDays lr.1))).2.2.2
    refine ⟨?_, ?_⟩
    · show 0 ≤ (historyStage p.x p.y
        (agingStage3D env.pow05 env.twoPiPow env.tracer deltaDays
          (verticalStage env deltaDays lr.1))).depth
      rw [hhist, haging]; exact hvert.1
    · show (historyStage p.x p.y
        (agingStage3D env.pow05 env.twoPiPow env.tracer deltaDays
          (verticalStage env deltaDays lr.1))).depth ≤ 1
      rw [hhist, haging]; exact hvert.2


/-- Mass and active flag survive a full part_000 pipeline step unchanged;
age advances by `Δdays` exactly when the particle passed the land check. -/
theorem updateParticleStep_frame (env : StepEnv) (deltaDays simDay : ℚ)
    (p : Particle) :
    (updateParticleStep env deltaDays simDay p).1.mass = p.mass
    ∧ (updateParticleStep env deltaDays simDay p).1.active = p.active
    ∧ ((updateParticleStep env deltaDays simDay p).2 = false →
        (updateParticleStep env deltaDays simDay p).1.age = p.age + deltaDays)
    ∧ ((updateParticleStep env deltaDays simDay p).2 = true →
        (updateParticleStep env deltaDays simDay p).1.age = p.age) := by
  unfold updateParticleStep
  dsimp only
  set pa := advectionStage env deltaDays simDay p with hpa
  set pd := diffusionStage env deltaDays simDay pa with hpd
  set lr := landStage env p.x p.y p.depth simDay pd with hlr
  have hfa := advectionStage_frame env deltaDays simDay p
  have hfd := diffusionStage_frame env deltaDays simDay pa
  have hfl := landStage_frame env p.x p.y p.depth simDay pd
  have hmass : lr.1.mass = p.mass := by
    rw [hlr, hfl.1, hfd.1, hfa.1]
  have hactive : lr.1.active = p.active := by
    rw [hlr, hfl.2.1, hfd.2.1, hfa.2.1]
  have hage : lr.1.age = p.age := by
    rw [hlr, hfl.2.2.1, hfd.2.2.1, hfa.2.2]
  have hfv := verticalStage_frame env deltaDays lr.1
  have hfg := agingStage3D_frame env.pow05 env.twoPiPow env.tracer deltaDays
    (verticalStage env deltaDays lr.1)
  have hfh := historyStage_frame p.x p.y
    (agingStage3D env.pow05 env.twoPiPow env.tracer deltaDays
      (verticalStage env deltaDays lr.1))
  split
  · refine ⟨hmass, hactive, ?_, ?_⟩
    · intro hc
      simp at hc
    · intro _
      exact hage
  · refine ⟨?_, ?_, ?_, ?_⟩
    · show (historyStage p.x p.y (agingStage3D env.pow05 env.twoPiPow
        env.tracer deltaDays (verticalStage env deltaDays lr.1))).mass
          = p.mass
      rw [hfh.1, hfg.1, hfv.1, hmass]
    · show (historyStage p.x p.y (agingStage3D env.pow05 env.twoPiPow
        env.tracer deltaDays (verticalStage env deltaDays lr.1))).active
          = p.active
      rw [hfh.2.1, hfg.2.1, hfv.2.1, hactive]
    · intro _
      show (historyStage p.x p.y (agingStage3D env.pow05 env.twoPiPow
        env.tracer deltaDays (verticalStage env deltaDays lr.1))).age
          = p.age + deltaDays
      rw [hfh.2.2.1, hfg.2.2.2, hfv.2.2, hage]
    · intro hc
      cases hc

/-! ## Claim theorems: depth invariant and aging/decay -/

/-- C7: the vertical-motion stage adds its displacement in metres divided
by 1000 and clamps the result to [0, 1]; Euler advection, RK4 integration,
diffusion leave depth unchanged; the land check restores either the
current or the pre-step depth; release puts new particles at depth 0; and
a full pipeline step keeps `0 ≤ depth ≤ 1`. -/
theorem depthInvariant_spec :
    (∀ (sqrtFn : ℚ → ℚ) (g : ℚ) (params : EngineParams) (kz : KzProfile)
        (settling : ℚ) (doy : ℕ) (dt : ℚ) (p : Particle),
        0 ≤ (applyVerticalMotion sqrtFn g params kz settling doy dt p).depth
        ∧ (applyVerticalMotion sqrtFn g params kz settling doy dt p).depth ≤ 1)
    ∧ (∀ (oc : OceanOracle) (refLon refLat : ℚ) (vel : VelResult)
        (dd sd : ℚ) (p : Particle),
        (eulerAdvectionBlock oc refLon refLat vel dd sd p).depth = p.depth)
    ∧ (∀ (lvel : VelOracle) (depths : List ℚ) (refLon refLat : ℚ)
        (settings : Rk4Settings) (sqrtFn : ℚ → ℚ) (p : Particle) (dd sd : ℚ),
        (rk4Integrate lvel depths refLon refLat settings sqrtFn p dd
          sd).depth = p.depth)
    ∧ (∀ (oc : OceanOracle) (refLon refLat : ℚ) (sqrtFn : ℚ → ℚ)
        (eke : Option ℚ) (ds ts g1 g2 dd sd : ℚ) (p : Particle),
        (diffusionBlock oc refLon refLat sqrtFn eke ds ts g1 g2 dd sd
          p).depth = p.depth)
    ∧ (∀ (oc : OceanOracle) (nearest : ℚ → ℚ → ℚ → ℚ → Option (ℚ × ℚ))
        (refLon refLat prevX prevY prevDepth sd : ℚ) (p : Particle),
        (checkLandInteraction oc nearest refLon refLat prevX prevY
          prevDepth sd p).1.depth = p.depth
        ∨ (checkLandInteraction oc nearest refLon refLat prevX prevY
          prevDepth sd p).1.depth = prevDepth)
    ∧ (∀ (pow05 : ℚ → ℚ) (tp : ℚ) (tracer : Tracer)
        (refLon refLat upp z0 z1 : ℚ) (p : Particle),
        (releaseActivate pow05 tp tracer refLon refLat upp z0 z1 p).depth
          = 0)
    ∧ (∀ (env : StepEnv) (dd sd : ℚ) (p : Particle),
        0 ≤ p.depth → p.depth ≤ 1 →
        0 ≤ (updateParticleStep env dd sd p).1.depth
        ∧ (updateParticleStep env dd sd p).1.depth ≤ 1) := by
  refine ⟨?_, ?_, ?_, ?_, ?_, ?_, ?_⟩
  · intro sqrtFn g params kz settling doy dt p
    exact applyVerticalMotion_depth_mem sqrtFn g params kz settling doy dt p
  · intro oc refLon refLat vel dd sd p
    exact (eulerAdvectionBlock_frame oc refLon refLat vel dd sd p).2.2.2
  · intro lvel depths refLon refLat settings sqrtFn p dd sd
    exact rk4Integrate_depth lvel depths refLon refLat settings sqrtFn p dd sd
  · intro oc refLon refLat sqrtFn eke ds ts g1 g2 dd sd p
    exact (diffusionBlock_frame oc refLon refLat sqrtFn eke ds ts g1 g2 dd
      sd p).2.2.2
  · intro oc nearest refLon refLat prevX prevY prevDepth sd p
    exact (checkLandInteraction_frame oc nearest refLon refLat prevX prevY
      prevDepth sd p).2.2.2
  · intro pow05 tp tracer refLon refLat upp z0 z1 p
    simp [releaseActivate]
  · intro env dd sd p h0 h1
    exact updateParticleStep_depth env dd sd p h0 h1

/-- A concrete quiescent step environment: every oracle misses, land
checking, diffusion and vertical mixing are off, RK4 disabled. -/
def envEx : StepEnv where
  oc := fun _ _ _ _ => true
  nearest := fun _ _ _ _ => none
  lvel := fun _ _ _ _ => ⟨0, 0, false⟩
  depths := [0]
  groupVel := ⟨0, 0, false⟩
  eke := none
  hasEke := false
  sqrtFn := fun _ => 0
  pow05 := fun _ => 1
  twoPiPow := 0
  g1 := 0
  g2 := 0
  g3 := 0
  refLon := 0
  refLat := 0
  landEnabled := false
  rk4Enabled := false
  rk4Settings := ⟨1 / 2, true, 1 / 100, 1 / 4⟩
  params := ⟨1, false, 0, 0⟩
  kz := defaultKzProfile
  tracer := cs137
  dayOfYear := 100

/-- C7 witness: a particle at depth 1/2 stays in [0, 1] across a concrete
pipeline step. -/
theorem depthInvariant_spec_witness :
    0 ≤ (updateParticleStep envEx 1 0
        { x := 0, y := 0, depth := 1 / 2, mass := 1, age := 0,
          concentration := 0, velocityU := 0, velocityV := 0,
          active := true, history := [] }).1.depth
    ∧ (updateParticleStep envEx 1 0
        { x := 0, y := 0, depth := 1 / 2, mass := 1, age := 0,
          concentration := 0, velocityU := 0, velocityV := 0,
          active := true, history := [] }).1.depth ≤ 1 := by
  exact depthInvariant_spec.2.2.2.2.2.2 envEx 1 0
    { x := 0, y := 0, depth := 1 / 2, mass := 1, age := 0,
      concentration := 0, velocityU := 0, velocityV := 0,
      active := true, history := [] } (by norm_num) (by norm_num)

/-- A particle whose mass is already far below `1e-3 ·
UNITS_PER_PARTICLE = 1e-3` (calibration 1). -/
def pLowMass : Particle where
  x := 0
  y := 0
  depth := 0
  mass := 1 / 1000000
  age := 0
  concentration := 0
  velocityU := 0
  velocityV := 0
  active := true
  history := []

/-- C4 counterexample: in the part_000 engine a particle whose mass
(1e-6) is far below 1e-3 times the per-particle calibration (1) survives a
full update step with its mass unchanged, stays active, and no decayed
counter is touched — although the bound tracer (Cs-137) decays.  This
contradicts the claimed per-step mass multiplication and threshold
deactivation. -/
theorem decay_cex :
    (updateParticleStep envEx 1 0 pLowMass).1.mass = 1 / 1000000
    ∧ (updateParticleStep envEx 1 0 pLowMass).1.active = true
    ∧ (updateParticleStep envEx 1 0 pLowMass).2 = false
    ∧ cs137.behavior.decay = true
    ∧ ((1 : ℚ) / 1000000 < 1 / 1000 * 1) := by
  have h := updateParticleStep_frame envEx 1 0 pLowMass
  have hland : (updateParticleStep envEx 1 0 pLowMass).2 = false := by
    unfold updateParticleStep landStage
    dsimp only
    simp [envEx]
  exact ⟨h.1, h.2.1, hland, rfl, by norm_num⟩

/-- C4 amended: in the part_000 engine an update step never changes a
particle's mass or active flag (no decay multiplication, no threshold
deactivation — decay enters only the concentration readout), and age
advances by `Δdays` exactly for particles that pass the land check; in
the web-variant engine, stage 5 advances age, multiplies mass by
`0.5^(Δdays/halfLife)` when decay is enabled, and deactivates the
particle with the decayed counter incremented exactly when the new mass
falls below the absolute threshold 0.001 (equal to 1e-3 times the unit
initial mass 1.0). -/
theorem decay_amended :
    (∀ (env : StepEnv) (dd sd : ℚ) (p : Particle),
        (updateParticleStep env dd sd p).1.mass = p.mass
        ∧ (updateParticleStep env dd sd p).1.active = p.active
        ∧ ((updateParticleStep env dd sd p).2 = false →
            (updateParticleStep env dd sd p).1.age = p.age + dd)
        ∧ ((updateParticleStep env dd sd p).2 = true →
            (updateParticleStep env dd sd p).1.age = p.age))
    ∧ (∀ (pow05 : ℚ → ℚ) (halfLife dd : ℚ) (p : Particle),
        (webDecayStage pow05 true halfLife dd p).1.age = p.age + dd
        ∧ (webDecayStage pow05 true halfLife dd p).1.mass
            = p.mass * pow05 (dd / halfLife)
        ∧ (p.mass * pow05 (dd / halfLife) < 1 / 1000 →
            (webDecayStage pow05 true halfLife dd p).1.active = false
            ∧ (webDecayStage pow05 true halfLife dd p).2 = 1)
        ∧ (¬ p.mass * pow05 (dd / halfLife) < 1 / 1000 →
            (webDecayStage pow05 true halfLife dd p).1.active = p.active
            ∧ (webDecayStage pow05 true halfLife dd p).2 = 0)) := by
  refine ⟨fun env dd sd p => updateParticleStep_frame env dd sd p,
    fun pow05 halfLife dd p => ?_⟩
  unfold webDecayStage
  dsimp only
  by_cases hm : p.mass * pow05 (dd / halfLife) < 1 / 1000
  · rw [if_pos hm]
    exact ⟨rfl, rfl, fun _ => ⟨rfl, rfl⟩, fun hc => absurd hm hc⟩
  · rw [if_neg hm]
    exact ⟨rfl, rfl, fun hc => absurd hc hm, fun _ => ⟨rfl, rfl⟩⟩

/-- C4 amended witness: a concrete part_000 step preserves mass, and a
concrete web stage-5 call (mass 1/800, decay factor 1/2) deactivates the
particle and increments the counter. -/
theorem decay_amended_witness :
    (updateParticleStep envEx 1 0 pLowMass).1.mass = pLowMass.mass
    ∧ (webDecayStage (fun _ => 1 / 2) true 11000 1
        { x := 0, y := 0, depth := 0, mass := 1 / 800, age := 0,
          concentration := 0, velocityU := 0, velocityV := 0,
          active := true, history := [] }).1.active = false
    ∧ (webDecayStage (fun _ => 1 / 2) true 11000 1
        { x := 0, y := 0, depth := 0, mass := 1 / 800, age := 0,
          concentration := 0, velocityU := 0, velocityV := 0,
          active := true, history := [] }).2 = 1 := by
  have h1 := (decay_amended.1 envEx 1 0 pLowMass).1
  have h2 := (decay_amended.2 (fun _ => 1 / 2) 11000 1
    { x := 0, y := 0, depth := 0, mass := 1 / 800, age := 0,
      concentration := 0, velocityU := 0, velocityV := 0,
      active := true, history := [] }).2.2.1 (by norm_num)
  exact ⟨h1, h2.1, h2.2⟩


/-! ## Claim theorems: path safety -/

/-- The k-th of `steps` sample points of a straight-line path check, in
lon/lat coordinates. -/
def pathSample (refLon refLat sx sy ex ey : ℚ) (steps k : ℕ) : ℚ × ℚ :=
  (refLon + (sx + (ex - sx) / (steps : ℚ) * (k : ℚ)) / LON_SCALE,
   refLat + (sy + (ey - sy) / (steps : ℚ) * (k : ℚ)) / LAT_SCALE)

/-- C1 amended: the part_000 path check samples exactly the 5 points at
fractions k/5 (k = 1..5, the 5th being the proposed endpoint itself) and
accepts iff all 5 are ocean; on the first failing sample it reports the
previous sample as the last valid position.  A failed Euler advection
places the particle there but retains the previously stored velocity,
while the RK4 branch zeroes it; a failed diffusion sub-step reverts to the
pre-diffusion position rather than the last valid sample.  The web-variant
check samples only 2 points (fractions 1/2 and 1). -/
theorem pathSafety_amended (oc : OceanOracle) (refLon refLat : ℚ) :
    (∀ (sx sy ex ey depth simDay : ℚ),
        ((checkPathToOcean oc refLon refLat sx sy ex ey depth simDay
            5).safe = true
          ↔ ∀ k : ℕ, 1 ≤ k → k ≤ 5 →
              oc (pathSample refLon refLat sx sy ex ey 5 k).1
                (pathSample refLon refLat sx sy ex ey 5 k).2
                (depth * 1000) simDay = true))
    ∧ (∀ (sx sy ex ey depth simDay : ℚ) (j : ℕ), 1 ≤ j → j ≤ 5 →
        (∀ t : ℕ, 1 ≤ t → t < j →
            oc (pathSample refLon refLat sx sy ex ey 5 t).1
              (pathSample refLon refLat sx sy ex ey 5 t).2
              (depth * 1000) simDay = true) →
        oc (pathSample refLon refLat sx sy ex ey 5 j).1
            (pathSample refLon refLat sx sy ex ey 5 j).2
            (depth * 1000) simDay = false →
        checkPathToOcean oc refLon refLat sx sy ex ey depth simDay 5
          = ⟨false, sx + (ex - sx) / ((5 : ℕ) : ℚ) * ((j - 1 : ℕ) : ℚ),
              sy + (ey - sy) / ((5 : ℕ) : ℚ) * ((j - 1 : ℕ) : ℚ)⟩)
    ∧ (∀ (vel : VelResult) (dd sd : ℚ) (p : Particle),
        vel.found = true →
        (checkPathToOcean oc refLon refLat p.x p.y
            (p.x + vel.u * K_UPS * dd) (p.y + vel.v * K_UPS * dd)
            p.depth sd 5).safe = false →
        (eulerAdvectionBlock oc refLon refLat vel dd sd p).x
            = (checkPathToOcean oc refLon refLat p.x p.y
                (p.x + vel.u * K_UPS * dd) (p.y + vel.v * K_UPS * dd)
                p.depth sd 5).lastValidX
        ∧ (eulerAdvectionBlock oc refLon refLat vel dd sd p).y
            = (checkPathToOcean oc refLon refLat p.x p.y
                (p.x + vel.u * K_UPS * dd) (p.y + vel.v * K_UPS * dd)
                p.depth sd 5).lastValidY
        ∧ (eulerAdvectionBlock oc refLon refLat vel dd sd p).velocityU
            = p.velocityU
        ∧ (eulerAdvectionBlock oc refLon refLat vel dd sd p).velocityV
            = p.velocityV)
    ∧ (∀ (r : Rk4Out) (sd : ℚ) (p : Particle),
        (checkPathToOcean oc refLon refLat p.x p.y r.x r.y p.depth sd
            5).safe = false →
        (rk4AdvectionBlock oc refLon refLat r sd p).x
            = (checkPathToOcean oc refLon refLat p.x p.y r.x r.y p.depth
                sd 5).lastValidX
        ∧ (rk4AdvectionBlock oc refLon refLat r sd p).y
            = (checkPathToOcean oc refLon refLat p.x p.y r.x r.y p.depth
                sd 5).lastValidY
        ∧ (rk4AdvectionBlock oc refLon refLat r sd p).velocityU = 0
        ∧ (rk4AdvectionBlock oc refLon refLat r sd p).velocityV = 0)
    ∧ (∀ (sqrtFn : ℚ → ℚ) (eke : Option ℚ) (ds ts g1 g2 dd sd : ℚ)
        (p : Particle),
        (checkPathToOcean oc refLon refLat p.x p.y
            (applyDiffusion sqrtFn eke ds ts g1 g2 dd p).x
            (applyDiffusion sqrtFn eke ds ts g1 g2 dd p).y
            (applyDiffusion sqrtFn eke ds ts g1 g2 dd p).depth sd
            5).safe = false →
        (diffusionBlock oc refLon refLat sqrtFn eke ds ts g1 g2 dd sd p).x
            = p.x
        ∧ (diffusionBlock oc refLon refLat sqrtFn eke ds ts g1 g2 dd sd
            p).y = p.y)
    ∧ (∀ (sx sy ex ey depth simDay : ℚ),
        ((webCheckPathToOcean oc refLon refLat sx sy ex ey depth
            simDay).safe = true
          ↔ ∀ k : ℕ, 1 ≤ k → k ≤ 2 →
              oc (pathSample refLon refLat sx sy ex ey 2 k).1
                (pathSample refLon refLat sx sy ex ey 2 k).2
                (depth * 1000) simDay = true)) := by
  have hiff : ∀ (steps : ℕ) (sx sy ex ey depth simDay : ℚ),
      ((checkPathToOcean oc refLon refLat sx sy ex ey depth simDay
          steps).safe = true
        ↔ ∀ k : ℕ, 1 ≤ k → k ≤ steps →
            oc (pathSample refLon refLat sx sy ex ey steps k).1
              (pathSample refLon refLat sx sy ex ey steps k).2
              (depth * 1000) simDay = true) := by
    intro steps sx sy ex ey depth simDay
    unfold checkPathToOcean
    dsimp only
    rw [checkPathGo_safe_iff]
    unfold pathSample
    constructor
    · intro h k h1 hsteps
      exact h k (List.mem_range'_1.mpr ⟨h1, by omega⟩)
    · intro h s hs
      have := List.mem_range'_1.mp hs
      exact h s this.1 (by omega)
  refine ⟨hiff 5, ?_, ?_, ?_, ?_, hiff 2⟩
  · intro sx sy ex ey depth simDay j h1 h5 hok hbad
    unfold checkPathToOcean
    dsimp only
    unfold pathSample at hok hbad
    interval_cases j
    · rw [show List.range' 1 5 = [] ++ 1 :: [2, 3, 4, 5] from rfl]
      exact checkPathGo_fail oc refLon refLat sx sy _ _ depth simDay ex ey
        [] 1 [2, 3, 4, 5] (by intro s hs; simp at hs) hbad
    · rw [show List.range' 1 5 = [1] ++ 2 :: [3, 4, 5] from rfl]
      refine checkPathGo_fail oc refLon refLat sx sy _ _ depth simDay ex ey
        [1] 2 [3, 4, 5] ?_ hbad
      intro s hs
      simp only [List.mem_singleton] at hs
      subst hs
      exact hok 1 (by norm_num) (by norm_num)
    · rw [show List.range' 1 5 = [1, 2] ++ 3 :: [4, 5] from rfl]
      refine checkPathGo_fail oc refLon refLat sx sy _ _ depth simDay ex ey
        [1, 2] 3 [4, 5] ?_ hbad
      intro s hs
      rcases List.mem_pair.mp hs with rfl | rfl
      · exact hok 1 (by norm_num) (by norm_num)
      · exact hok 2 (by norm_num) (by norm_num)
    · rw [show List.range' 1 5 = [1, 2, 3] ++ 4 :: [5] from rfl]
      refine checkPathGo_fail oc refLon refLat sx sy _ _ depth simDay ex ey
        [1, 2, 3] 4 [5] ?_ hbad
      intro s hs
      simp only [List.mem_cons, List.mem_singleton, List.not_mem_nil,
        or_false] at hs
      rcases hs with rfl | rfl | rfl
      · exact hok 1 (by norm_num) (by norm_num)
      · exact hok 2 (by norm_num) (by norm_num)
      · exact hok 3 (by norm_num) (by norm_num)
    · rw [show List.range' 1 5 = [1, 2, 3, 4] ++ 5 :: [] from rfl]
      refine checkPathGo_fail oc refLon refLat sx sy _ _ depth simDay ex ey
        [1, 2, 3, 4] 5 [] ?_ hbad
      intro s hs
      simp only [List.mem_cons, List.mem_singleton, List.not_mem_nil,
        or_false] at hs
      rcases hs with rfl | rfl | rfl | rfl
      · exact hok 1 (by norm_num) (by norm_num)
      · exact hok 2 (by norm_num) (by norm_num)
      · exact hok 3 (by norm_num) (by norm_num)
      · exact hok 4 (by norm_num) (by norm_num)
  · intro vel dd sd p hf hsafe
    unfold eulerAdvectionBlock
    dsimp only
    rw [if_pos hf, if_neg (by rw [hsafe]; simp)]
    exact ⟨rfl, rfl, rfl, rfl⟩
  · intro r sd p hsafe
    unfold rk4AdvectionBlock
    dsimp only
    rw [if_neg (by rw [hsafe]; simp)]
    exact ⟨rfl, rfl, rfl, rfl⟩
  · intro sqrtFn eke ds ts g1 g2 dd sd p hsafe
    unfold diffusionBlock
    dsimp only
    rw [if_neg (by rw [hsafe]; simp)]
    exact ⟨rfl, rfl⟩

/-- A half-plane land mask: ocean while the local-plane x stays below
20 km. -/
def ocWall : OceanOracle := fun lon _ _ _ => decide (lon * LON_SCALE < 20)

/-- Land only on the strip 8 km < x < 9 km, which contains the first of 5
samples of a 43.2 km move but neither of the web variant's 2 samples. -/
def ocPatch : OceanOracle := fun lon _ _ _ =>
  !decide (8 < lon * LON_SCALE ∧ lon * LON_SCALE < 9)

/-- A particle at the origin carrying a stored velocity of 0.5 m/s. -/
def pCex : Particle where
  x := 0
  y := 0
  depth := 0
  mass := 1
  age := 0
  concentration := 0
  velocityU := 1 / 2
  velocityV := 0
  active := true
  history := []

/-- C1 counterexample: with land from x = 20 km on, an Euler move of
43.2 km fails the path check at the third sample, and the code leaves the
stored velocity at 0.5 (not zeroed) while placing the particle at the
second sample (17.28 km); a failed diffusion sub-step is reverted to the
start (x = 0), not to the last verified sample (17.28 km); and the web
variant's check passes straight over a land strip at 8–9 km that the
5-sample check catches. -/
theorem pathSafety_cex :
    ((eulerAdvectionBlock ocWall 0 0 ⟨1 / 2, 0, true⟩ 1 0 pCex).velocityU
        = 1 / 2
      ∧ (eulerAdvectionBlock ocWall 0 0 ⟨1 / 2, 0, true⟩ 1 0 pCex).x
        = 432 / 25
      ∧ ((1 : ℚ) / 2 ≠ 0))
    ∧ ((diffusionBlock ocWall 0 0 (fun _ => 43200) none 1 1 1 0 1 0
          pCex).x = 0
      ∧ (checkPathToOcean ocWall 0 0 0 0 (216 / 5) 0 0 0 5).lastValidX
        = 432 / 25
      ∧ ((0 : ℚ) ≠ 432 / 25))
    ∧ ((webCheckPathToOcean ocPatch 0 0 0 0 (216 / 5) 0 0 0).safe = true
      ∧ (checkPathToOcean ocPatch 0 0 0 0 (216 / 5) 0 0 0 5).safe
        = false) := by
  have hr5 : List.range' 1 5 = [1, 2, 3, 4, 5] := rfl
  have hr2 : List.range' 1 2 = [1, 2] := rfl
  refine ⟨⟨?_, ?_, by norm_num⟩, ⟨?_, ?_, by norm_num⟩, ?_, ?_⟩ <;>
    norm_num [eulerAdvectionBlock, diffusionBlock, applyDiffusion,
      webCheckPathToOcean, checkPathToOcean, checkPathGo, hr5, hr2,
      ocWall, ocPatch, pCex, LON_SCALE, LAT_SCALE, K_UPS]

/-- C1 amended witness: on the half-plane mask, the failing Euler move
keeps the stored velocity 0.5 and stops at the second sample. -/
theorem pathSafety_amended_witness :
    (eulerAdvectionBlock ocWall 0 0 ⟨1 / 2, 0, true⟩ 1 0 pCex).velocityU
        = pCex.velocityU
    ∧ (eulerAdvectionBlock ocWall 0 0 ⟨1 / 2, 0, true⟩ 1 0 pCex).x
        = (checkPathToOcean ocWall 0 0 pCex.x pCex.y
            (pCex.x + (1 / 2) * K_UPS * 1) (pCex.y + 0 * K_UPS * 1)
            pCex.depth 0 5).lastValidX := by
  have h := (pathSafety_amended ocWall 0 0).2.2.1 ⟨1 / 2, 0, true⟩ 1 0 pCex
    rfl
    (by
      have hr5 : List.range' 1 5 = [1, 2, 3, 4, 5] := rfl
      norm_num [checkPathToOcean, checkPathGo, hr5, ocWall, pCex,
        LON_SCALE, LAT_SCALE, K_UPS])
  exact ⟨h.2.2.1, h.1⟩


/-! ## Claim theorems: RK4 versus Euler on a uniform field -/

/-- On a uniform, everywhere-found field all four RK4 samples coincide and
one sub-step advances by exactly `h·u·86.4`. -/
theorem rk4Step_uniform (lvel : VelOracle) (depths : List ℚ)
    (refLon refLat u v : ℚ)
    (hvel : ∀ lon lat d t, lvel lon lat d t = ⟨u, v, true⟩)
    (x y d h t : ℚ) :
    rk4Step lvel depths refLon refLat x y d h t
      = some ⟨x + h * u * K_UPS, y + h * v * K_UPS, d, u, v⟩ := by
  unfold rk4Step engineGetVelocityAt
  simp only [hvel, if_true]
  simp only [Option.some.injEq, Rk4Out.mk.injEq]
  exact ⟨by ring, by ring, trivial, by ring, by ring⟩

/-- The RK4 loop on a uniform field advances linearly and accumulates the
uniform velocity. -/
theorem rk4Loop_uniform (lvel : VelOracle) (depths : List ℚ)
    (refLon refLat u v : ℚ)
    (hvel : ∀ lon lat d t, lvel lon lat d t = ⟨u, v, true⟩)
    (actual simDay : ℚ) (steps : ℕ) :
    ∀ (n : ℕ) (x y d tu tv : ℚ),
      rk4Loop lvel depths refLon refLat actual simDay steps n
          (x, y, d, tu, tv)
        = some (x + (n : ℚ) * actual * u * K_UPS,
            y + (n : ℚ) * actual * v * K_UPS, d, tu + (n : ℚ) * u,
            tv + (n : ℚ) * v) := by
  intro n
  induction n with
  | zero =>
      intro x y d tu tv
      unfold rk4Loop
      norm_num
  | succ n ih =>
      intro x y d tu tv
      unfold rk4Loop
      dsimp only
      rw [rk4Step_uniform lvel depths refLon refLat u v hvel]
      dsimp only
      rw [ih]
      simp only [Option.some.injEq, Prod.mk.injEq]
      push_cast
      refine ⟨by ring, by ring, trivial, by ring, by ring⟩

/-- C8: on a velocity field uniform in space and time with every sample
found, RK4 over `Δdays = 1` with sub-step `h = 0.1` takes 10 sub-steps of
exactly `h·u·86.4` each and produces exactly the Euler displacement
`Δdays·u·86.4` — the difference is 0, hence within 1e-9. -/
theorem rk4EulerUniform_spec (lvel : VelOracle) (depths : List ℚ)
    (refLon refLat simDay u v : ℚ) (p : Particle)
    (hvel : ∀ lon lat d t, lvel lon lat d t = ⟨u, v, true⟩) :
    (∀ x y d t, rk4Step lvel depths refLon refLat x y d (1 / 10) t
        = some ⟨x + (1 / 10) * u * K_UPS, y + (1 / 10) * v * K_UPS, d,
            u, v⟩)
    ∧ (⌈(1 : ℚ) / (1 / 10)⌉.toNat = 10)
    ∧ rk4IntegrateWith lvel depths refLon refLat p 1 simDay (1 / 10)
        = some ⟨p.x + u * K_UPS, p.y + v * K_UPS, p.depth, u, v⟩
    ∧ eulerIntegrate lvel depths refLon refLat p 1 simDay
        = ⟨p.x + u * K_UPS, p.y + v * K_UPS, p.depth, u, v⟩
    ∧ (∀ r : Rk4Out,
        rk4IntegrateWith lvel depths refLon refLat p 1 simDay (1 / 10)
          = some r →
        |r.x - (eulerIntegrate lvel depths refLon refLat p 1 simDay).x|
            < 1 / 1000000000
        ∧ |r.y - (eulerIntegrate lvel depths refLon refLat p 1 simDay).y|
            < 1 / 1000000000) := by
  have h10 : ⌈(1 : ℚ) / (1 / 10)⌉ = 10 := by norm_num
  have hsteps : ⌈(1 : ℚ) / (1 / 10)⌉.toNat = 10 := by rw [h10]; rfl
  have heuler : eulerIntegrate lvel depths refLon refLat p 1 simDay
      = ⟨p.x + u * K_UPS, p.y + v * K_UPS, p.depth, u, v⟩ := by
    unfold eulerIntegrate engineGetVelocityAt
    simp only [hvel, if_true]
    simp only [Rk4Out.mk.injEq]
    norm_num
  have hrk4 : rk4IntegrateWith lvel depths refLon refLat p 1 simDay (1 / 10)
      = some ⟨p.x + u * K_UPS, p.y + v * K_UPS, p.depth, u, v⟩ := by
    unfold rk4IntegrateWith
    dsimp only
    rw [hsteps, rk4Loop_uniform lvel depths refLon refLat u v hvel]
    simp only [Option.some.injEq, Rk4Out.mk.injEq]
    norm_num
  refine ⟨fun x y d t => rk4Step_uniform lvel depths refLon refLat u v hvel
    x y d (1 / 10) t, hsteps, hrk4, heuler, ?_⟩
  intro r hr
  rw [hrk4] at hr
  injection hr with hr
  subst hr
  rw [heuler]
  norm_num

/-- C8 witness: the uniform field u = 0.1 m/s, v = 0 moves a particle at
the origin by exactly 8.64 km in one day under both integrators. -/
theorem rk4EulerUniform_spec_witness :
    rk4IntegrateWith (fun _ _ _ _ => ⟨1 / 10, 0, true⟩) [0] 0 0 pLowMass 1
        0 (1 / 10)
      = some ⟨pLowMass.x + (1 / 10) * K_UPS, pLowMass.y + 0 * K_UPS,
          pLowMass.depth, 1 / 10, 0⟩
    ∧ eulerIntegrate (fun _ _ _ _ => ⟨1 / 10, 0, true⟩) [0] 0 0 pLowMass 1
        0
      = ⟨pLowMass.x + (1 / 10) * K_UPS, pLowMass.y + 0 * K_UPS,
          pLowMass.depth, 1 / 10, 0⟩ := by
  have h := rk4EulerUniform_spec (fun _ _ _ _ => ⟨1 / 10, 0, true⟩) [0] 0 0
    0 (1 / 10) 0 pLowMass (fun _ _ _ _ => rfl)
  exact ⟨h.2.2.1, h.2.2.2.1⟩


/-! ## Bake playback (web/bakeSystem.js, `seek` / `interpolateParticles`)

The log-linear concentration blend `10^(log10 c1 + t·(log10 c2 − log10 c1))`
is transcendental and is abstracted as the parameter `logInterp`; none of
the proved statements depend on its values. -/

/-- One stored snapshot particle record (`captureSnapshot` fields; the
constant `active: true` flag is omitted). -/
structure BakedParticle where
  x : ℚ
  y : ℚ
  depth : ℚ
  concentration : ℚ
  mass : ℚ
  age : ℚ
  history : List (ℚ × ℚ × ℚ)
deriving DecidableEq, Repr

/-- One stored snapshot (fields the player reads). -/
structure Snapshot where
  day : ℚ
  particles : List BakedParticle
deriving DecidableEq, Repr, Inhabited

/-- The scan `for (i = 0; i < len − 1; i++)` in `seek`, looking for the
first adjacent pair with `snaps[i].day ≤ day ≤ snaps[i+1].day`. -/
def findInterval : List Snapshot → ℚ → ℕ → Option ℕ
  | s1 :: s2 :: rest, day, i =>
      if s1.day ≤ day ∧ day ≤ s2.day then some i
      else findInterval (s2 :: rest) day (i + 1)
  | _, _, _ => none

/-- `snapshots[i].day` (0 when out of range; never relied upon). -/
def dayAt (snaps : List Snapshot) (i : ℕ) : ℚ :=
  ((snaps.get? i).map Snapshot.day).getD 0

/-- The `(currentSnapshotIndex, interpolationFactor)` pair that `seek(day)`
stores: clamp to the first snapshot with factor 0 when `day ≤ first.day`,
to the last with factor 0 when `day ≥ last.day`, else use the scanned
interval and `t = (day − day1)/(day2 − day1)`. -/
def seekState (snaps : List Snapshot) (day : ℚ) : ℕ × ℚ :=
  match snaps with
  | [] => (0, 0)
  | first :: _ =>
      let idx :=
        match findInterval snaps day 0 with
        | some i => i
        | none => 0
      if day ≤ first.day then (0, 0)
      else if dayAt snaps (snaps.length - 1) ≤ day then
        (snaps.length - 1, 0)
      else (idx, (day - dayAt snaps idx) /
        (dayAt snaps (idx + 1) - dayAt snaps idx))

/-- Per-particle interpolation: linear position, depth, mass and age;
log-linear concentration when both endpoints are positive, else linear;
history from the nearer endpoint. -/
def interpOne (logInterp : ℚ → ℚ → ℚ → ℚ) (t : ℚ)
    (p1 p2 : BakedParticle) : BakedParticle where
  x := p1.x + t * (p2.x - p1.x)
  y := p1.y + t * (p2.y - p1.y)
  depth := p1.depth + t * (p2.depth - p1.depth)
  concentration :=
    if 0 < p1.concentration ∧ 0 < p2.concentration then
      logInterp p1.concentration p2.concentration t
    else p1.concentration + t * (p2.concentration - p1.concentration)
  mass := p1.mass + t * (p2.mass - p1.mass)
  age := p1.age + t * (p2.age - p1.age)
  history := if t < 1 / 2 then p1.history else p2.history

/-- `interpolateParticles`: at the last snapshot or at factor 0 the stored
particle list is returned unchanged; otherwise the particle lists are
blended pairwise up to the shorter length (`Math.min` loop). -/
def interpolateParticles (logInterp : ℚ → ℚ → ℚ → ℚ)
    (snaps : List Snapshot) (idx : ℕ) (t : ℚ) : List BakedParticle :=
  match snaps with
  | [] => []
  | _ :: _ =>
      let s1 := (snaps.get? idx).getD ⟨0, []⟩
      if snaps.length - 1 ≤ idx ∨ t = 0 then s1.particles
      else
        let s2 := (snaps.get? (idx + 1)).getD ⟨0, []⟩
        List.zipWith (interpOne logInterp t) s1.particles s2.particles

/-- The particle list of the frame `seek(day)` emits. -/
def seekParticles (logInterp : ℚ → ℚ → ℚ → ℚ) (snaps : List Snapshot)
    (day : ℚ) : List BakedParticle :=
  match snaps with
  | [] => []
  | _ :: _ =>
      interpolateParticles logInterp snaps (seekState snaps day).1
        (seekState snaps day).2

/-- The last stored day is the `getLast` day. -/
theorem dayAt_last (first : Snapshot) (rest : List Snapshot) :
    dayAt (first :: rest) ((first :: rest).length - 1)
      = ((first :: rest).getLast (by simp)).day := by
  unfold dayAt
  have hlt : (first :: rest).length - 1 < (first :: rest).length := by
    simp
  rw [List.getLast_eq_get, List.get?_eq_get hlt]
  rfl

/-- In a strictly day-sorted snapshot list of length ≥ 2 the first day is
strictly before the last. -/
theorem first_day_lt_last (first : Snapshot) (r0 : Snapshot)
    (rs : List Snapshot)
    (hsorted : List.Chain' (fun a b => a.day < b.day) (first :: r0 :: rs)) :
    first.day < dayAt (first :: r0 :: rs)
      ((first :: r0 :: rs).length - 1) := by
  haveI : IsTrans Snapshot (fun a b => a.day < b.day) :=
    ⟨fun _ _ _ hab hbc => lt_trans hab hbc⟩
  have hp : List.Pairwise (fun a b => a.day < b.day) (first :: r0 :: rs) :=
    List.chain'_iff_pairwise.mp hsorted
  rw [dayAt_last]
  have hmem : (first :: r0 :: rs).getLast (by simp) ∈ r0 :: rs := by
    have h1 := List.getLast_mem (l := first :: r0 :: rs) (by simp)
    rcases List.mem_cons.mp h1 with h | h
    · exfalso
      have h2 := List.getLast_cons (l := r0 :: rs) (by simp) (a := first)
      rw [h2] at h
      have h3 : (r0 :: rs).getLast (by simp) ∈ r0 :: rs :=
        List.getLast_mem (by simp)
      rw [h] at h3
      have h4 := (List.pairwise_cons.mp hp).1 first h3
      exact lt_irrefl _ h4
    · exact h
  have h2 := List.getLast_cons (l := r0 :: rs) (by simp) (a := first)
  rw [h2]
  exact (List.pairwise_cons.mp hp).1 _
    (by rw [← h2]; exact hmem)

/-! ## Claim theorem: seek boundary behaviour -/

/-- C10: with at least one snapshot loaded and snapshot days strictly
increasing, `seek(day)` with `day ≤` the first stored day emits exactly
the first snapshot's stored particle list unchanged with interpolation
factor 0; with `day ≥` the last stored day, exactly the last snapshot's
list with factor 0; and a nonzero interpolation factor (the only case in
which blending happens) occurs only when `day` lies strictly between the
first and last stored snapshot days. -/
theorem seek_spec (logInterp : ℚ → ℚ → ℚ → ℚ) (snaps : List Snapshot)
    (day : ℚ) (hne : snaps ≠ [])
    (hsorted : List.Chain' (fun a b => a.day < b.day) snaps) :
    (day ≤ snaps.headI.day →
        seekParticles logInterp snaps day = snaps.headI.particles
        ∧ (seekState snaps day).2 = 0)
    ∧ (dayAt snaps (snaps.length - 1) ≤ day →
        seekParticles logInterp snaps day = (snaps.getLast hne).particles
        ∧ (seekState snaps day).2 = 0)
    ∧ ((seekState snaps day).2 ≠ 0 →
        snaps.headI.day < day ∧ day < dayAt snaps (snaps.length - 1)) := by
  match snaps, hne with
  | first :: rest, hne =>
  by_cases h1 : day ≤ first.day
  · -- clamp to the first snapshot
    have hstate : seekState (first :: rest) day = (0, 0) := by
      unfold seekState
      dsimp only
      rw [if_pos h1]
    have hpart : seekParticles logInterp (first :: rest) day
        = first.particles := by
      unfold seekParticles
      rw [hstate]
      unfold interpolateParticles
      dsimp only
      rw [if_pos (Or.inr rfl)]
      rfl
    refine ⟨fun _ => ⟨hpart, by rw [hstate]⟩, fun hlast => ?_,
      fun ht => absurd (by rw [hstate]) ht⟩
    -- day ≤ first.day and last.day ≤ day force a one-element list
    match rest, hsorted with
    | [], _ =>
        refine ⟨?_, ?_⟩
        · rw [hpart]
          rfl
        · rw [hstate]
    | r0 :: rs, hsorted =>
        exfalso
        have := first_day_lt_last first r0 rs hsorted
        linarith [le_trans hlast h1]
  · by_cases h2 : dayAt (first :: rest) ((first :: rest).length - 1) ≤ day
    · -- clamp to the last snapshot
      have hstate : seekState (first :: rest) day
          = ((first :: rest).length - 1, 0) := by
        unfold seekState
        dsimp only
        rw [if_neg h1, if_pos h2]
      have hpart : seekParticles logInterp (first :: rest) day
          = ((first :: rest).getLast hne).particles := by
        unfold seekParticles
        rw [hstate]
        unfold interpolateParticles
        dsimp only
        rw [if_pos (Or.inl (le_refl _))]
        have hlt : (first :: rest).length - 1 < (first :: rest).length := by
          simp
        rw [List.getLast_eq_get, List.get?_eq_get hlt]
        rfl
      exact ⟨fun hd => absurd hd h1, fun _ => ⟨hpart, by rw [hstate]⟩,
        fun ht => absurd (by rw [hstate]) ht⟩
    · -- interior: interpolation may happen, day strictly between ends
      have hstrict : first.day < day ∧
          day < dayAt (first :: rest) ((first :: rest).length - 1) :=
        ⟨lt_of_not_le h1, lt_of_not_le h2⟩
      exact ⟨fun hd => absurd hd h1, fun hd => absurd hd h2,
        fun _ => hstrict⟩

/-- C10 witness: seeking before the first snapshot of a concrete
 two-snapshot list returns the first stored particle list unchanged. -/
theorem seek_spec_witness :
    seekParticles (fun a _ _ => a)
        [⟨0, [⟨1, 2, 0, 3, 4, 5, []⟩]⟩, ⟨5, []⟩] (-1)
      = [⟨1, 2, 0, 3, 4, 5, []⟩] := by
  have h := (seek_spec (fun a _ _ => a)
    [⟨0, [⟨1, 2, 0, 3, 4, 5, []⟩]⟩, ⟨5, []⟩] (-1) (by simp)
    (by norm_num [List.chain'_cons])).1 (by norm_num)
  simpa using h.1

end Proteus
